import Mathlib

/-!
# aws-config-switcher: the profile-switch engine

A shallow embedding of `aws-config-switcher.go`.

* A Go `string` / `[]byte` is a `GoString`, a list of characters, one per byte.
* The file system is an explicit state `FS` threaded through every call of
  package `os`; each call is also appended to `FS.log`, so that "this path is
  never read" and "this path is never written" are statements about the state.
* In `FS` a file is identified with its path string. The section on links
  repeats the calls of the switch for a file system in which several names can
  denote one file; the claim on confined writes is settled there.
* Library functions the program calls (`filepath.Join`, `filepath.Base`,
  `strings.Replace`, `fmt.Sprintf`, `os.ReadFile`, `os.WriteFile`, `os.ReadDir`)
  are modelled after their Go documentation for a Unix target.
-/

set_option autoImplicit false

namespace AwsConfigSwitcher

/-- A Go string (or byte slice): the sequence of its bytes. -/
abbrev GoString := List Char

/-- A Go `error` value. -/
inductive Error where
  /-- An error reported by a call of package `os` on a path. -/
  | os (op : String) (path : GoString)
  /-- The value of `fmt.Errorf("<msg>: %w", err)`. -/
  | wrap (msg : String) (err : Error)
  /-- Any other error (fuzzy finder, subprocess, home directory lookup). -/
  | other (msg : String)
  deriving DecidableEq, Repr

/-- The part of an `fs.DirEntry` the program looks at. -/
structure DirEntry where
  Name : GoString
  IsDir : Bool
  deriving DecidableEq, Repr

/-- One call of package `os` that touches the file system. -/
inductive Event where
  | stat (path : GoString)
  | mkdir (path : GoString)
  | readDir (path : GoString)
  | readFile (path : GoString)
  | writeFile (path : GoString) (data : GoString)
  deriving DecidableEq, Repr

/-- The file system as the program can observe it.

* `file p` is the content `os.ReadFile p` returns, `none` when the read fails
  (nothing at `p`, or nothing readable as a regular file).
* `refuses p` holds when `os.WriteFile p _ 0644` reports an error (the path is a
  directory, its parent is missing, permissions, ...). A refused write leaves
  every file as it was.
* `notExist p` is `os.IsNotExist(err)` for the `err` of `os.Stat p`.
* `mkdirErr p` is the error of `os.Mkdir p 0755`, if any.
* `dirEntries p` is the pair `os.ReadDir p` returns: the entries read and the
  error, if any.
* `log` lists the calls made so far, oldest first. -/
structure FS where
  file : GoString → Option GoString
  refuses : GoString → Bool
  notExist : GoString → Bool
  mkdirErr : GoString → Option Error
  dirEntries : GoString → List DirEntry × Option Error
  log : List Event

/-! ## Package `strings` -/

/-- Go `strings.Index(s, substr)`: the index of the first instance of `substr`
in `s`; `none` stands for Go's `-1`. -/
def strings.Index : GoString → GoString → Option Nat
  | [], substr => if substr = [] then some 0 else none
  | c :: cs, substr =>
    if substr.isPrefixOf (c :: cs) then some 0
    else (strings.Index cs substr).map (· + 1)

/-- Go `strings.Replace(s, old, new, 1)`, the only count the program uses:
`s` is returned as it is when `old == new` or `old` does not occur, otherwise
the first instance of `old` is replaced by `new`. -/
def strings.Replace (s old new : GoString) : GoString :=
  if old = new then s
  else
    match strings.Index s old with
    | none => s
    | some j => s.take j ++ new ++ s.drop (j + old.length)

/-! ## Package `fmt` -/

/-- Go `fmt.Sprintf("[%s]", name)`. -/
def fmt.SprintfBracket (name : GoString) : GoString :=
  '[' :: name ++ [']']

/-! ## Package `path/filepath` (Unix: separator `/`, no volume names) -/

/-- The elements of a path: the pieces between separators, empty ones included. -/
def filepath.elements : GoString → List GoString
  | [] => [[]]
  | c :: cs =>
    if c = '/' then [] :: filepath.elements cs
    else
      match filepath.elements cs with
      | [] => [[c]]
      | e :: es => (c :: e) :: es

/-- One round of the loop of `filepath.Clean`, on the elements kept so far
(`kept`, last element first) and the next element `e` of the path:
an empty element and `.` are dropped; `..` removes the last kept element when
there is one that is not itself a kept `..`, is kept when the path is not
rooted, and is dropped at the root; any other element is kept. -/
def filepath.cleanStep (rooted : Bool) (kept : List GoString) (e : GoString) : List GoString :=
  if e = [] then kept
  else if e = ['.'] then kept
  else if e = ['.', '.'] then
    match kept with
    | top :: rest =>
      if top = ['.', '.'] then (if rooted then kept else e :: kept) else rest
    | [] => if rooted then kept else [e]
  else e :: kept

/-- The kept elements (last first) written out with single separators. -/
def filepath.joinKept : List GoString → GoString
  | [] => []
  | [e] => e
  | e :: f :: rest => filepath.joinKept (f :: rest) ++ '/' :: e

/-- Go `filepath.Clean(path)`: the shortest path name equivalent to `path` by
purely lexical processing. The empty path becomes `.`. -/
def filepath.Clean (path : GoString) : GoString :=
  match path with
  | [] => ['.']
  | c :: _ =>
    let rooted : Bool := c = '/'
    let kept := (filepath.elements path).foldl (filepath.cleanStep rooted) []
    if rooted then '/' :: filepath.joinKept kept
    else if kept = [] then ['.']
    else filepath.joinKept kept

/-- Go `strings.Join(elem, "/")`. -/
def filepath.withSeparators : List GoString → GoString
  | [] => []
  | [e] => e
  | e :: f :: rest => e ++ '/' :: filepath.withSeparators (f :: rest)

/-- Go `filepath.Join(elem...)`: leading empty elements are ignored, the rest
is joined with separators and cleaned; the result is empty when every element
is empty. -/
def filepath.Join : List GoString → GoString
  | [] => []
  | e :: es =>
    if e = [] then filepath.Join es
    else filepath.Clean (filepath.withSeparators (e :: es))

/-- Go `filepath.Base(path)`: the last element of `path`, trailing separators
removed first; `.` for the empty path and `/` for a path of separators only. -/
def filepath.Base (path : GoString) : GoString :=
  if path = [] then ['.']
  else
    let stripped := path.reverse.dropWhile (· = '/')
    let last := (stripped.takeWhile (· ≠ '/')).reverse
    if last = [] then ['/'] else last

/-! ## Package `os` -/

/-- The files after `name` has been created or truncated with content `data`. -/
def setFile (file : GoString → Option GoString) (name data : GoString) :
    GoString → Option GoString :=
  fun p => if p = name then some data else file p

/-- Go `os.ReadFile(name)`. -/
def os.ReadFile (name : GoString) (fs : FS) : Except Error GoString × FS :=
  let fs1 : FS := { fs with log := fs.log ++ [Event.readFile name] }
  match fs.file name with
  | some data => (Except.ok data, fs1)
  | none => (Except.error (Error.os "open" name), fs1)

/-- Go `os.WriteFile(name, data, 0644)`: creates or truncates `name` and writes
`data` to it. -/
def os.WriteFile (name data : GoString) (fs : FS) : Option Error × FS :=
  if fs.refuses name then
    (some (Error.os "open" name),
      { fs with log := fs.log ++ [Event.writeFile name data] })
  else
    (none,
      { fs with
        file := setFile fs.file name data
        log := fs.log ++ [Event.writeFile name data] })

/-- Go `os.ReadDir(name)`: the entries read and the error, if any. -/
def os.ReadDir (name : GoString) (fs : FS) : (List DirEntry × Option Error) × FS :=
  (fs.dirEntries name, { fs with log := fs.log ++ [Event.readDir name] })

/-- Go `_, err := os.Stat(name); os.IsNotExist(err)`. -/
def os.StatIsNotExist (name : GoString) (fs : FS) : Bool × FS :=
  (fs.notExist name, { fs with log := fs.log ++ [Event.stat name] })

/-- Go `os.Mkdir(name, 0755)`. A directory is no regular file, so `file` is
left as it is. -/
def os.Mkdir (name : GoString) (fs : FS) : Option Error × FS :=
  (fs.mkdirErr name, { fs with log := fs.log ++ [Event.mkdir name] })

/-! ## The program -/

/-- The constant `awsDir`. -/
def awsDir : GoString := ".awsconfigs".toList

/-- Source `getConfigDirs`: the names of the directories in `dir`. -/
def getConfigDirs (dir : GoString) (fs : FS) : Except Error (List GoString) × FS :=
  match os.ReadDir dir fs with
  | ((_, some err), fs1) => (Except.error err, fs1)
  | ((files, none), fs1) =>
    (Except.ok (files.foldl
      (fun configDirs file => if file.IsDir then configDirs ++ [file.Name] else configDirs) []),
     fs1)

/-- Source `backupFile`: copies `filePath` to `filePath + ".backup"`. -/
def backupFile (filePath : GoString) (fs : FS) : Option Error × FS :=
  let backupPath := filePath ++ ".backup".toList
  match os.ReadFile filePath fs with
  | (Except.error err, fs1) => (some err, fs1)
  | (Except.ok input, fs1) => os.WriteFile backupPath input fs1

/-- Source `copyFile`: copies the file `src` to `dst`. -/
def copyFile (src dst : GoString) (fs : FS) : Option Error × FS :=
  match os.ReadFile src fs with
  | (Except.error err, fs1) => (some err, fs1)
  | (Except.ok input, fs1) =>
    match os.WriteFile dst input fs1 with
    | (some err, fs2) => (some err, fs2)
    | (none, fs2) => (none, fs2)

/-- Source `rewriteCredentialsAsDefault`: reads `selectedCredentialsPath`,
replaces the first `[<base of selectedCredentialsPath>]` by `[default]` and
writes the result to `credentialsPath`. -/
def rewriteCredentialsAsDefault (credentialsPath selectedCredentialsPath : GoString)
    (fs : FS) : Option Error × FS :=
  match os.ReadFile selectedCredentialsPath fs with
  | (Except.error err, fs1) => (some err, fs1)
  | (Except.ok selectedCreds, fs1) =>
    let credContent := selectedCreds
    let credContent := strings.Replace credContent
      (fmt.SprintfBracket (filepath.Base selectedCredentialsPath)) "[default]".toList
    match os.WriteFile credentialsPath credContent fs1 with
    | (some err, fs2) => (some err, fs2)
    | (none, fs2) => (none, fs2)

/-- Source `backupAndReplaceAWSConfigs`: backs up both live files, then installs
the selected profile. -/
def backupAndReplaceAWSConfigs (configPath credentialsPath selectedProfilePath : GoString)
    (fs : FS) : Option Error × FS :=
  match backupFile configPath fs with
  | (some err, fs1) => (some (Error.wrap "failed to backup config" err), fs1)
  | (none, fs1) =>
    match backupFile credentialsPath fs1 with
    | (some err, fs2) => (some (Error.wrap "failed to backup credentials" err), fs2)
    | (none, fs2) =>
      match copyFile (filepath.Join [selectedProfilePath, "config".toList]) configPath fs2 with
      | (some err, fs3) => (some (Error.wrap "failed to replace config" err), fs3)
      | (none, fs3) =>
        match rewriteCredentialsAsDefault credentialsPath
            (filepath.Join [selectedProfilePath, "credentials".toList]) fs3 with
        | (some err, fs4) =>
          (some (Error.wrap "failed to rewrite credentials as default" err), fs4)
        | (none, fs4) => (none, fs4)

/-- What `main` is given from outside the file system: the home directory
lookup, the fuzzy finder (an index into the list it is shown, or an error when
nothing is selected) and the output of `aws sts get-caller-identity`, which may
depend on the files then in place. -/
structure Env where
  UserHomeDir : Except Error GoString
  Find : List GoString → Except Error Nat
  stsGetCallerIdentity : (GoString → Option GoString) → Except Error GoString

/-- Source `getAWSCallerIdentity`. -/
def getAWSCallerIdentity (env : Env) (fs : FS) : Except Error GoString :=
  match env.stsGetCallerIdentity fs.file with
  | Except.error err => Except.error (Error.wrap "failed to get AWS caller identity" err)
  | Except.ok output => Except.ok output

/-- The point at which `main` returns; the messages it prints there are left
out. `indexPanic` is the run-time panic of `configDirs[selectedIndex]` on an
index out of range. -/
inductive Outcome where
  | homeDirError (err : Error)
  | mkdirError (err : Error)
  | readDirError (err : Error)
  | noSelection (err : Error)
  | indexPanic
  | switchError (err : Error)
  | identityError (err : Error)
  | switched (profile : GoString) (callerIdentity : GoString)
  deriving DecidableEq, Repr

/-- The local `awsConfigPath` of `main`. -/
def awsConfigPath (homeDir : GoString) : GoString :=
  filepath.Join [homeDir, ".aws".toList, "config".toList]

/-- The local `awsCredentialsPath` of `main`. -/
def awsCredentialsPath (homeDir : GoString) : GoString :=
  filepath.Join [homeDir, ".aws".toList, "credentials".toList]

/-- The local `configsPath` of `main`. -/
def configsPath (homeDir : GoString) : GoString :=
  filepath.Join [homeDir, awsDir]

/-- Source `main`, from the call of `getConfigDirs` to its end. -/
def mainSelectAndSwitch (env : Env) (homeDir : GoString) (fs : FS) : Outcome × FS :=
  match getConfigDirs (configsPath homeDir) fs with
  | (Except.error err, fs1) => (Outcome.readDirError err, fs1)
  | (Except.ok configDirs, fs1) =>
    match env.Find configDirs with
    | Except.error err => (Outcome.noSelection err, fs1)
    | Except.ok selectedIndex =>
      match configDirs.get? selectedIndex with
      | none => (Outcome.indexPanic, fs1)
      | some name =>
        let selectedProfilePath := filepath.Join [configsPath homeDir, name]
        match backupAndReplaceAWSConfigs (awsConfigPath homeDir) (awsCredentialsPath homeDir)
            selectedProfilePath fs1 with
        | (some err, fs2) => (Outcome.switchError err, fs2)
        | (none, fs2) =>
          match getAWSCallerIdentity env fs2 with
          | Except.error err => (Outcome.identityError err, fs2)
          | Except.ok callerIdentity =>
            (Outcome.switched (filepath.Base selectedProfilePath) callerIdentity, fs2)

/-- Source `main`. -/
def main (env : Env) (fs : FS) : Outcome × FS :=
  match env.UserHomeDir with
  | Except.error err => (Outcome.homeDirError err, fs)
  | Except.ok homeDir =>
    match os.StatIsNotExist (configsPath homeDir) fs with
    | (true, fs1) =>
      match os.Mkdir (configsPath homeDir) fs1 with
      | (some err, fs2) => (Outcome.mkdirError err, fs2)
      | (none, fs2) => mainSelectAndSwitch env homeDir fs2
    | (false, fs1) => mainSelectAndSwitch env homeDir fs1

/-- The events of a log that are writes. -/
def Event.isWrite : Event → Bool
  | Event.writeFile _ _ => true
  | _ => false

/-- The events of a log that read or write a file. -/
def Event.isFileAccess : Event → Bool
  | Event.writeFile _ _ => true
  | Event.readFile _ => true
  | _ => false

/-- The path an event concerns. -/
def Event.path : Event → GoString
  | Event.stat p => p
  | Event.mkdir p => p
  | Event.readDir p => p
  | Event.readFile p => p
  | Event.writeFile p _ => p

/-- A file system holding the listed regular files and nothing else, in which
no write is refused, no directory is listed, and no call has been made yet. -/
def FS.ofFiles (files : List (GoString × GoString)) : FS where
  file := fun p => (files.find? (fun kv => kv.1 = p)).map (·.2)
  refuses := fun _ => false
  notExist := fun _ => false
  mkdirErr := fun _ => none
  dirEntries := fun _ => ([], none)
  log := []


/-- An element `filepath.Clean` keeps: not empty, without separator, neither
`.` nor `..`. -/
def IsName (name : GoString) : Prop :=
  name ≠ [] ∧ '/' ∉ name ∧ name ≠ ['.'] ∧ name ≠ ['.', '.']

/-- The path `path` ends with the element `name`: it is `name`, or something
ending in a separator followed by `name`. -/
def EndsWithElement (path name : GoString) : Prop :=
  ∃ pre : GoString, path = pre ++ name ∧ (pre = [] ∨ ∃ q, pre = q ++ ['/'])

instance (name : GoString) : Decidable (IsName name) := by
  unfold IsName; infer_instance

/-- Between `fs` and `fs'` only files at paths in `S` can have changed, and
every write logged in between is a write to a path in `S`. -/
def Confined (S : List GoString) (fs fs' : FS) : Prop :=
  (∀ q, q ∉ S → fs'.file q = fs.file q) ∧
    ∃ evs, fs'.log = fs.log ++ evs ∧ ∀ e ∈ evs, e.isWrite = true → e.path ∈ S

/-! ## Sample file systems -/

/-- The file system `fs`, except that writes to `p` are refused. -/
def FS.refusing (fs : FS) (p : GoString) : FS :=
  { fs with refuses := fun q => decide (q = p) || fs.refuses q }

/-- A home directory. -/
def homeU : GoString := "/home/u".toList

/-- The profile directory `staging` under the store of `homeU`. -/
def stagingDir : GoString := "/home/u/.awsconfigs/staging".toList

/-- The profile directory `prod` under the store of `homeU`. -/
def prodDir : GoString := "/home/u/.awsconfigs/prod".toList

/-- Both live files, and a profile `staging` whose credentials carry the header
`[staging]`. -/
def stagingFS : FS := FS.ofFiles
  [("/home/u/.aws/config".toList, "[default]\nregion=old\n".toList),
   ("/home/u/.aws/credentials".toList, "[default]\naws_access_key_id=OLD\n".toList),
   ("/home/u/.awsconfigs/staging/config".toList, "[default]\nregion=eu-west-1\n".toList),
   ("/home/u/.awsconfigs/staging/credentials".toList,
      "[staging]\naws_access_key_id=X\naws_secret_access_key=Y\n".toList)]

/-- Both live files, and a profile `prod` whose credentials carry the header
`[credentials]`. -/
def prodFS : FS := FS.ofFiles
  [("/home/u/.aws/config".toList, "[default]\nregion=old\n".toList),
   ("/home/u/.aws/credentials".toList, "[default]\naws_access_key_id=OLD\n".toList),
   ("/home/u/.awsconfigs/prod/config".toList, "[default]\nregion=us-east-1\n".toList),
   ("/home/u/.awsconfigs/prod/credentials".toList,
      "[credentials]\naws_access_key_id=X\n".toList)]

/-- Both live files, and a profile `staging` that has a `config` but no
`credentials`. -/
def noCredentialsFS : FS := FS.ofFiles
  [("/home/u/.aws/config".toList, "[default]\nregion=old\n".toList),
   ("/home/u/.aws/credentials".toList, "[default]\naws_access_key_id=OLD\n".toList),
   ("/home/u/.awsconfigs/staging/config".toList, "[default]\nregion=eu-west-1\n".toList)]

/-- The profile `staging` complete, but no live credentials file. -/
def noLiveCredentialsFS : FS := FS.ofFiles
  [("/home/u/.aws/config".toList, "[default]\nregion=old\n".toList),
   ("/home/u/.awsconfigs/staging/config".toList, "[default]\nregion=eu-west-1\n".toList),
   ("/home/u/.awsconfigs/staging/credentials".toList,
      "[staging]\naws_access_key_id=X\naws_secret_access_key=Y\n".toList)]

/-- A store root listing the directories `a`, `b`, `c` and the regular file
`notes.txt`. -/
def storeFS : FS :=
  { stagingFS with
    dirEntries := fun _ =>
      ([⟨"a".toList, true⟩, ⟨"b".toList, true⟩, ⟨"c".toList, true⟩,
        ⟨"notes.txt".toList, false⟩], none) }

/-- A store root listing the one profile `staging`. -/
def stagingStoreFS : FS :=
  { stagingFS with dirEntries := fun _ => ([⟨"staging".toList, true⟩], none) }

/-- An operator who cancels the selection. -/
def cancellingEnv : Env where
  UserHomeDir := Except.ok homeU
  Find := fun _ => Except.error (Error.other "abort")
  stsGetCallerIdentity := fun _ => Except.ok []

/-- An operator who selects the first profile shown. -/
def selectingEnv : Env where
  UserHomeDir := Except.ok homeU
  Find := fun _ => Except.ok 0
  stsGetCallerIdentity := fun _ => Except.ok []

/-! ## The switch on a file system with links

The calls of the switch once more, for a file system in which several names can
denote one file. `target name` is the path under which the file that `name`
denotes is kept, once symbolic links are followed and hard links and unclean
spellings of a path are identified; `FS.file` is keyed by these paths. The
program creates and removes no link, so `target` is the same throughout a run.
With `target` the identity these are the definitions above. -/

/-- Go `os.ReadFile(name)`, following links. -/
def Linked.os.ReadFile (target : GoString → GoString) (name : GoString) (fs : FS) :
    Except Error GoString × FS :=
  let fs1 : FS := { fs with log := fs.log ++ [Event.readFile name] }
  match fs.file (target name) with
  | some data => (Except.ok data, fs1)
  | none => (Except.error (Error.os "open" name), fs1)

/-- Go `os.WriteFile(name, data, 0644)`, following links: the file that `name`
denotes is created or truncated and `data` written to it. -/
def Linked.os.WriteFile (target : GoString → GoString) (name data : GoString) (fs : FS) :
    Option Error × FS :=
  if fs.refuses name then
    (some (Error.os "open" name),
      { fs with log := fs.log ++ [Event.writeFile name data] })
  else
    (none,
      { fs with
        file := setFile fs.file (target name) data
        log := fs.log ++ [Event.writeFile name data] })

/-- Source `backupFile`, on a file system with links. -/
def Linked.backupFile (target : GoString → GoString) (filePath : GoString) (fs : FS) :
    Option Error × FS :=
  let backupPath := filePath ++ ".backup".toList
  match Linked.os.ReadFile target filePath fs with
  | (Except.error err, fs1) => (some err, fs1)
  | (Except.ok input, fs1) => Linked.os.WriteFile target backupPath input fs1

/-- Source `copyFile`, on a file system with links. -/
def Linked.copyFile (target : GoString → GoString) (src dst : GoString) (fs : FS) :
    Option Error × FS :=
  match Linked.os.ReadFile target src fs with
  | (Except.error err, fs1) => (some err, fs1)
  | (Except.ok input, fs1) =>
    match Linked.os.WriteFile target dst input fs1 with
    | (some err, fs2) => (some err, fs2)
    | (none, fs2) => (none, fs2)

/-- Source `rewriteCredentialsAsDefault`, on a file system with links. -/
def Linked.rewriteCredentialsAsDefault (target : GoString → GoString)
    (credentialsPath selectedCredentialsPath : GoString) (fs : FS) : Option Error × FS :=
  match Linked.os.ReadFile target selectedCredentialsPath fs with
  | (Except.error err, fs1) => (some err, fs1)
  | (Except.ok selectedCreds, fs1) =>
    let credContent := selectedCreds
    let credContent := strings.Replace credContent
      (fmt.SprintfBracket (filepath.Base selectedCredentialsPath)) "[default]".toList
    match Linked.os.WriteFile target credentialsPath credContent fs1 with
    | (some err, fs2) => (some err, fs2)
    | (none, fs2) => (none, fs2)

/-- Source `backupAndReplaceAWSConfigs`, on a file system with links. -/
def Linked.backupAndReplaceAWSConfigs (target : GoString → GoString)
    (configPath credentialsPath selectedProfilePath : GoString) (fs : FS) :
    Option Error × FS :=
  match Linked.backupFile target configPath fs with
  | (some err, fs1) => (some (Error.wrap "failed to backup config" err), fs1)
  | (none, fs1) =>
    match Linked.backupFile target credentialsPath fs1 with
    | (some err, fs2) => (some (Error.wrap "failed to backup credentials" err), fs2)
    | (none, fs2) =>
      match Linked.copyFile target (filepath.Join [selectedProfilePath, "config".toList])
          configPath fs2 with
      | (some err, fs3) => (some (Error.wrap "failed to replace config" err), fs3)
      | (none, fs3) =>
        match Linked.rewriteCredentialsAsDefault target credentialsPath
            (filepath.Join [selectedProfilePath, "credentials".toList]) fs3 with
        | (some err, fs4) =>
          (some (Error.wrap "failed to rewrite credentials as default" err), fs4)
        | (none, fs4) => (none, fs4)

/-- Between `fs` and `fs'` only files kept under a path in `keys` can have
changed, and every write logged in between was made under a name in `names`. -/
def ConfinedTo (keys names : List GoString) (fs fs' : FS) : Prop :=
  (∀ k, k ∉ keys → fs'.file k = fs.file k) ∧
    ∃ evs, fs'.log = fs.log ++ evs ∧ ∀ e ∈ evs, e.isWrite = true → e.path ∈ names

/-- The links of a home directory whose live credentials file is a symbolic link
to the `credentials` file of the profile `prod`. -/
def credentialsLinkedToProd (name : GoString) : GoString :=
  if name = "/home/u/.aws/credentials".toList then
    "/home/u/.awsconfigs/prod/credentials".toList
  else name

/-- The files of `credentialsLinkedToProd`: the live config and the files of the
two profiles `staging` and `prod`. -/
def linkedFS : FS := FS.ofFiles
  [("/home/u/.aws/config".toList, "[default]\nregion=old\n".toList),
   ("/home/u/.awsconfigs/staging/config".toList, "[default]\nregion=eu-west-1\n".toList),
   ("/home/u/.awsconfigs/staging/credentials".toList,
      "[staging]\naws_access_key_id=X\naws_secret_access_key=Y\n".toList),
   ("/home/u/.awsconfigs/prod/config".toList, "[default]\nregion=us-east-1\n".toList),
   ("/home/u/.awsconfigs/prod/credentials".toList, "[prod]\naws_access_key_id=P\n".toList)]

/-! ## Lemmas on `path/filepath` -/

theorem elements_ne_nil (p : GoString) : filepath.elements p ≠ [] := by
  induction p with
  | nil => simp [filepath.elements]
  | cons c cs ih =>
    unfold filepath.elements
    split
    · simp
    · split <;> simp

theorem elements_of_no_sep (name : GoString) (h : '/' ∉ name) :
    filepath.elements name = [name] := by
  induction name with
  | nil => simp [filepath.elements]
  | cons c cs ih =>
    have hc : c ≠ '/' := fun hh => h (by simp [hh])
    have hcs : '/' ∉ cs := fun hh => h (List.mem_cons_of_mem _ hh)
    simp [filepath.elements, hc, ih hcs]

theorem elements_append_sep (p name : GoString) (h : '/' ∉ name) :
    filepath.elements (p ++ '/' :: name) = filepath.elements p ++ [name] := by
  induction p with
  | nil => simp [filepath.elements, elements_of_no_sep name h]
  | cons c cs ih =>
    by_cases hc : c = '/'
    · simp [filepath.elements, hc, ih]
    · simp only [List.cons_append, filepath.elements, hc, if_false]
      rw [show cs.append ('/' :: name) = cs ++ '/' :: name from rfl, ih]
      cases hE : filepath.elements cs with
      | nil => exact absurd hE (elements_ne_nil cs)
      | cons e es => simp

theorem cleanStep_name (rooted : Bool) (kept : List GoString) (name : GoString)
    (h : IsName name) : filepath.cleanStep rooted kept name = name :: kept := by
  obtain ⟨h1, _, h3, h4⟩ := h
  simp [filepath.cleanStep, h1, h3, h4]

theorem joinKept_endsWith (name : GoString) (kept : List GoString) :
    EndsWithElement (filepath.joinKept (name :: kept)) name := by
  cases kept with
  | nil => exact ⟨[], by simp [filepath.joinKept], Or.inl rfl⟩
  | cons f rest =>
    refine ⟨filepath.joinKept (f :: rest) ++ ['/'], ?_, Or.inr ⟨_, rfl⟩⟩
    simp [filepath.joinKept]

theorem endsWith_cons (c : Char) (path name : GoString) (hc : c = '/')
    (h : EndsWithElement path name) : EndsWithElement (c :: path) name := by
  obtain ⟨pre, hp, hpre⟩ := h
  refine ⟨c :: pre, by simp [hp], Or.inr ?_⟩
  rcases hpre with rfl | ⟨q, rfl⟩
  · exact ⟨[], by simp [hc]⟩
  · exact ⟨c :: q, by simp⟩

theorem Clean_append_name (p name : GoString) (h : IsName name) :
    EndsWithElement (filepath.Clean (p ++ '/' :: name)) name := by
  have hno : '/' ∉ name := h.2.1
  cases p with
  | nil =>
    have hE : filepath.elements ('/' :: name) = [[], name] := by
      simp [filepath.elements, elements_of_no_sep name hno]
    have hK : List.foldl (filepath.cleanStep true) [] [[], name] = [name] := by
      simp only [List.foldl]
      rw [show filepath.cleanStep true [] [] = [] by simp [filepath.cleanStep],
        cleanStep_name _ _ _ h]
    have hC : filepath.Clean ('/' :: name) = '/' :: filepath.joinKept [name] := by
      unfold filepath.Clean
      simp only [hE, hK, decide_True, if_true]
    rw [List.nil_append, hC]
    exact endsWith_cons _ _ _ rfl (joinKept_endsWith _ _)
  | cons c cs =>
    simp only [List.cons_append, filepath.Clean]
    have hE := elements_append_sep (c :: cs) name hno
    simp only [List.cons_append] at hE
    rw [hE, List.foldl_append]
    simp only [List.foldl, cleanStep_name _ _ _ h]
    by_cases hc : c = '/'
    · simp only [hc, decide_True, if_true]
      exact endsWith_cons _ _ _ rfl (joinKept_endsWith _ _)
    · simp only [hc, decide_False, Bool.false_eq_true, if_false, reduceCtorEq]
      exact joinKept_endsWith _ _

theorem Clean_name (name : GoString) (h : IsName name) : filepath.Clean name = name := by
  obtain ⟨h1, h2, h3, h4⟩ := h
  cases name with
  | nil => exact absurd rfl h1
  | cons c cs =>
    have hc : c ≠ '/' := fun hh => h2 (by simp [hh])
    simp only [filepath.Clean, elements_of_no_sep _ h2, List.foldl,
      cleanStep_name _ _ _ ⟨h1, h2, h3, h4⟩]
    simp [hc, filepath.joinKept]

theorem withSeparators_append (e : GoString) (es : List GoString) (name : GoString) :
    filepath.withSeparators (e :: es ++ [name]) =
      filepath.withSeparators (e :: es) ++ '/' :: name := by
  induction es generalizing e with
  | nil => simp [filepath.withSeparators]
  | cons f fs ih =>
    have := ih f
    simp only [List.cons_append] at this ⊢
    simp [filepath.withSeparators, this]

theorem Join_endsWith (es : List GoString) (name : GoString) (h : IsName name) :
    EndsWithElement (filepath.Join (es ++ [name])) name := by
  induction es with
  | nil =>
    simp only [List.nil_append, filepath.Join, h.1, if_false]
    rw [show filepath.withSeparators [name] = name from rfl, Clean_name name h]
    exact ⟨[], by simp, Or.inl rfl⟩
  | cons e es ih =>
    by_cases he : e = []
    · simpa [filepath.Join, he] using ih
    · simp only [List.cons_append, filepath.Join, he, if_false]
      have := withSeparators_append e es name
      simp only [List.cons_append] at this
      rw [show e :: es.append [name] = e :: (es ++ [name]) from rfl, this]
      exact Clean_append_name _ _ h

theorem Base_of_endsWith (path name : GoString) (h : IsName name)
    (hp : EndsWithElement path name) : filepath.Base path = name := by
  obtain ⟨pre, rfl, hpre⟩ := hp
  obtain ⟨h1, h2, _, _⟩ := h
  have hne : pre ++ name ≠ [] := by simp [h1]
  have hrev : name.reverse ≠ [] := by simpa using h1
  have hall : ∀ x ∈ name.reverse, x ≠ '/' := by
    intro x hx hxe
    exact h2 (by simpa [hxe] using hx)
  obtain ⟨d, ds, hd⟩ := List.exists_cons_of_ne_nil hrev
  have hdne : d ≠ '/' := hall d (by simp [hd])
  have hdrop : (name.reverse ++ pre.reverse).dropWhile (· = '/') =
      name.reverse ++ pre.reverse := by
    rw [hd]; simp [List.dropWhile, hdne]
  have htake : (name.reverse ++ pre.reverse).takeWhile (· ≠ '/') = name.reverse := by
    rcases hpre with rfl | ⟨q, rfl⟩
    · simp only [List.reverse_nil, List.append_nil]
      rw [List.takeWhile_eq_self_iff]
      intro x hx; simpa using hall x hx
    · simp only [List.reverse_append, List.reverse_cons, List.reverse_nil, List.nil_append,
        List.singleton_append]
      rw [List.takeWhile_append_of_pos]
      · simp [List.takeWhile]
      · intro x hx; simpa using hall x hx
  simp only [filepath.Base, hne, if_false, List.reverse_append, hdrop, htake,
    List.reverse_reverse, h1]

theorem getLast?_of_endsWith (path name : GoString) (h : name ≠ [])
    (hp : EndsWithElement path name) : path.getLast? = name.getLast? := by
  obtain ⟨pre, rfl, _⟩ := hp
  obtain ⟨d, ds, hd⟩ := List.exists_cons_of_ne_nil h
  rw [hd, List.getLast?_append_cons]


/-! ## Lemmas on `strings` -/

theorem Index_none (s sub : GoString) (h : strings.Index s sub = none) :
    ∀ a b : GoString, s ≠ a ++ sub ++ b := by
  induction s with
  | nil =>
    intro a b hab
    have hsub : sub = [] := by
      have := congrArg List.length hab
      simp at this
      exact List.length_eq_zero.mp (by omega)
    simp [strings.Index, hsub] at h
  | cons c cs ih =>
    unfold strings.Index at h
    split at h
    · simp at h
    · rename_i hpre
      have hcs : strings.Index cs sub = none := by simpa using h
      intro a b hab
      cases a with
      | nil =>
        apply hpre
        rw [List.isPrefixOf_iff_prefix]
        exact ⟨b, by simpa using hab.symm⟩
      | cons x a1 =>
        simp only [List.cons_append, List.cons.injEq] at hab
        exact ih hcs a1 b hab.2

theorem Index_some (s sub : GoString) (j : Nat) (h : strings.Index s sub = some j) :
    (∃ b, s = s.take j ++ sub ++ b) ∧
      ∀ a1 b1 : GoString, s = a1 ++ sub ++ b1 → j ≤ a1.length := by
  induction s generalizing j with
  | nil =>
    unfold strings.Index at h
    split at h
    · rename_i hsub
      simp only [Option.some.injEq] at h
      subst h
      exact ⟨⟨[], by simp [hsub]⟩, fun _ _ _ => Nat.zero_le _⟩
    · simp at h
  | cons c cs ih =>
    unfold strings.Index at h
    split at h
    · rename_i hpre
      simp only [Option.some.injEq] at h
      subst h
      rw [List.isPrefixOf_iff_prefix] at hpre
      obtain ⟨b, hb⟩ := hpre
      exact ⟨⟨b, by simp [hb]⟩, fun _ _ _ => Nat.zero_le _⟩
    · rename_i hpre
      cases hk : strings.Index cs sub with
      | none => simp [hk] at h
      | some k =>
        simp only [hk, Option.map_some', Option.some.injEq] at h
        subst h
        obtain ⟨⟨b, hb⟩, hmin⟩ := ih k hk
        refine ⟨⟨b, ?_⟩, ?_⟩
        · simp only [List.take_succ_cons, List.cons_append, List.cons.injEq, true_and]
          exact hb
        · intro a1 b1 hab
          cases a1 with
          | nil =>
            exfalso
            apply hpre
            rw [List.isPrefixOf_iff_prefix]
            exact ⟨b1, by simpa using hab.symm⟩
          | cons x a2 =>
            simp only [List.cons_append, List.cons.injEq] at hab
            have := hmin a2 b1 hab.2
            simp only [List.length_cons]
            omega

/-- `strings.Replace` leaves a text without the token as it is. -/
theorem Replace_absent (t old new : GoString) (h : ∀ a b : GoString, t ≠ a ++ old ++ b) :
    strings.Replace t old new = t := by
  unfold strings.Replace
  split
  · rfl
  · cases hj : strings.Index t old with
    | none => rfl
    | some j =>
      obtain ⟨⟨b, hb⟩, _⟩ := Index_some t old j hj
      exact absurd hb (h _ _)

/-- `strings.Replace` replaces the first instance of the token and nothing else. -/
theorem Replace_first (t old new a b : GoString) (h : t = a ++ old ++ b)
    (hmin : ∀ a1 b1 : GoString, t = a1 ++ old ++ b1 → a.length ≤ a1.length) :
    strings.Replace t old new = a ++ new ++ b := by
  unfold strings.Replace
  split
  · rename_i heq
    rw [h, heq]
  · cases hj : strings.Index t old with
    | none => exact absurd h (Index_none t old hj a b)
    | some j =>
      obtain ⟨⟨b2, hb2⟩, hjmin⟩ := Index_some t old j hj
      have h1 : j ≤ a.length := hjmin a b h
      have hjlen : j ≤ t.length := by
        rw [h]; simp only [List.length_append]; omega
      have h2 : a.length ≤ j := by
        have := hmin _ _ hb2
        simpa [List.length_take, Nat.min_eq_left hjlen] using this
      have hj2 : j = a.length := le_antisymm h1 h2
      subst hj2
      simp only
      rw [h]
      simp [List.take_append_eq_append_take, List.drop_append_eq_append_drop]


/-! ## The paths of the program -/

theorem last_of_Join_config (es : List GoString) :
    (filepath.Join (es ++ ["config".toList])).getLast? = some 'g' := by
  rw [getLast?_of_endsWith _ _ (by decide) (Join_endsWith es _ (by decide))]
  decide

theorem last_of_Join_credentials (es : List GoString) :
    (filepath.Join (es ++ ["credentials".toList])).getLast? = some 's' := by
  rw [getLast?_of_endsWith _ _ (by decide) (Join_endsWith es _ (by decide))]
  decide

theorem last_of_backup (p : GoString) : (p ++ ".backup".toList).getLast? = some 'p' := by
  rw [show ".backup".toList = ['.', 'b', 'a', 'c', 'k', 'u'] ++ ['p'] by decide,
    ← List.append_assoc, List.getLast?_append]
  rfl

theorem ne_of_last {p q : GoString} {c d : Char} (hp : p.getLast? = some c)
    (hq : q.getLast? = some d) (hcd : c ≠ d) : p ≠ q := by
  intro h
  rw [h, hq] at hp
  exact hcd (Option.some.inj hp).symm

theorem last_awsConfigPath (homeDir : GoString) :
    (awsConfigPath homeDir).getLast? = some 'g' :=
  last_of_Join_config [homeDir, ".aws".toList]

theorem last_awsCredentialsPath (homeDir : GoString) :
    (awsCredentialsPath homeDir).getLast? = some 's' :=
  last_of_Join_credentials [homeDir, ".aws".toList]

theorem last_profileConfig (selectedProfilePath : GoString) :
    (filepath.Join [selectedProfilePath, "config".toList]).getLast? = some 'g' :=
  last_of_Join_config [selectedProfilePath]

theorem last_profileCredentials (selectedProfilePath : GoString) :
    (filepath.Join [selectedProfilePath, "credentials".toList]).getLast? = some 's' :=
  last_of_Join_credentials [selectedProfilePath]

/-- The token searched for is `[credentials]`, whatever the profile directory. -/
theorem token_eq (selectedProfilePath : GoString) :
    fmt.SprintfBracket (filepath.Base (filepath.Join [selectedProfilePath, "credentials".toList]))
      = "[credentials]".toList := by
  have h := Base_of_endsWith _ "credentials".toList (by decide)
    (Join_endsWith [selectedProfilePath] _ (by decide))
  rw [show [selectedProfilePath] ++ ["credentials".toList]
    = [selectedProfilePath, "credentials".toList] from rfl] at h
  rw [h]
  decide


/-! ## One call at a time -/

theorem setFile_same (file : GoString → Option GoString) (name data : GoString) :
    setFile file name data name = some data := by
  simp [setFile]

theorem setFile_ne (file : GoString → Option GoString) (name data q : GoString)
    (h : q ≠ name) : setFile file name data q = file q := by
  simp [setFile, h]

theorem backupFile_eq (p : GoString) (fs : FS) :
    backupFile p fs =
      match fs.file p with
      | none => (some (Error.os "open" p), { fs with log := fs.log ++ [Event.readFile p] })
      | some c =>
        if fs.refuses (p ++ ".backup".toList) then
          (some (Error.os "open" (p ++ ".backup".toList)),
            { fs with log := fs.log ++
                [Event.readFile p, Event.writeFile (p ++ ".backup".toList) c] })
        else
          (none,
            { fs with
              file := setFile fs.file (p ++ ".backup".toList) c
              log := fs.log ++
                [Event.readFile p, Event.writeFile (p ++ ".backup".toList) c] }) := by
  unfold backupFile os.ReadFile os.WriteFile
  cases fs.file p with
  | none => rfl
  | some c =>
    by_cases hr : fs.refuses (p ++ ".backup".toList) = true
    · simp [hr]
    · simp [hr]

theorem copyFile_eq (src dst : GoString) (fs : FS) :
    copyFile src dst fs =
      match fs.file src with
      | none => (some (Error.os "open" src), { fs with log := fs.log ++ [Event.readFile src] })
      | some c =>
        if fs.refuses dst then
          (some (Error.os "open" dst),
            { fs with log := fs.log ++ [Event.readFile src, Event.writeFile dst c] })
        else
          (none,
            { fs with
              file := setFile fs.file dst c
              log := fs.log ++ [Event.readFile src, Event.writeFile dst c] }) := by
  unfold copyFile os.ReadFile os.WriteFile
  cases fs.file src with
  | none => rfl
  | some c =>
    by_cases hr : fs.refuses dst = true
    · simp [hr]
    · simp [hr]

theorem rewriteCredentialsAsDefault_eq (credentialsPath selectedCredentialsPath : GoString)
    (fs : FS) :
    rewriteCredentialsAsDefault credentialsPath selectedCredentialsPath fs =
      match fs.file selectedCredentialsPath with
      | none =>
        (some (Error.os "open" selectedCredentialsPath),
          { fs with log := fs.log ++ [Event.readFile selectedCredentialsPath] })
      | some t =>
        if fs.refuses credentialsPath then
          (some (Error.os "open" credentialsPath),
            { fs with log := fs.log ++
                [Event.readFile selectedCredentialsPath,
                 Event.writeFile credentialsPath
                  (strings.Replace t
                    (fmt.SprintfBracket (filepath.Base selectedCredentialsPath))
                    "[default]".toList)] })
        else
          (none,
            { fs with
              file := setFile fs.file credentialsPath
                (strings.Replace t
                  (fmt.SprintfBracket (filepath.Base selectedCredentialsPath))
                  "[default]".toList)
              log := fs.log ++
                [Event.readFile selectedCredentialsPath,
                 Event.writeFile credentialsPath
                  (strings.Replace t
                    (fmt.SprintfBracket (filepath.Base selectedCredentialsPath))
                    "[default]".toList)] }) := by
  unfold rewriteCredentialsAsDefault os.ReadFile os.WriteFile
  cases fs.file selectedCredentialsPath with
  | none => rfl
  | some c =>
    by_cases hr : fs.refuses credentialsPath = true
    · simp [hr]
    · simp [hr]


theorem pc_ne_backup (prof p : GoString) :
    filepath.Join [prof, "config".toList] ≠ p ++ ".backup".toList :=
  ne_of_last (last_profileConfig prof) (last_of_backup p) (by decide)

theorem pr_ne_backup (prof p : GoString) :
    filepath.Join [prof, "credentials".toList] ≠ p ++ ".backup".toList :=
  ne_of_last (last_profileCredentials prof) (last_of_backup p) (by decide)

theorem backupFile_inv (p : GoString) (fs fs' : FS) (h : backupFile p fs = (none, fs')) :
    ∃ c, fs.file p = some c ∧ fs.refuses (p ++ ".backup".toList) = false ∧
      fs' = { fs with
        file := setFile fs.file (p ++ ".backup".toList) c
        log := fs.log ++ [Event.readFile p, Event.writeFile (p ++ ".backup".toList) c] } := by
  rw [backupFile_eq] at h
  cases hA : fs.file p with
  | none =>
    rw [hA] at h
    exact absurd (congrArg Prod.fst h) (by simp only [reduceCtorEq, not_false_eq_true])
  | some c =>
    rw [hA] at h
    by_cases hr : fs.refuses (p ++ ".backup".toList) = true
    · simp only [hr, if_true] at h
      exact absurd (congrArg Prod.fst h) (by simp only [reduceCtorEq, not_false_eq_true])
    · simp only [hr, if_false] at h
      exact ⟨c, rfl, by simpa using hr, (Prod.mk.inj h).2.symm⟩

theorem copyFile_inv (src dst : GoString) (fs fs' : FS) (h : copyFile src dst fs = (none, fs')) :
    ∃ c, fs.file src = some c ∧ fs.refuses dst = false ∧
      fs' = { fs with
        file := setFile fs.file dst c
        log := fs.log ++ [Event.readFile src, Event.writeFile dst c] } := by
  rw [copyFile_eq] at h
  cases hA : fs.file src with
  | none =>
    rw [hA] at h
    exact absurd (congrArg Prod.fst h) (by simp only [reduceCtorEq, not_false_eq_true])
  | some c =>
    rw [hA] at h
    by_cases hr : fs.refuses dst = true
    · simp only [hr, if_true] at h
      exact absurd (congrArg Prod.fst h) (by simp only [reduceCtorEq, not_false_eq_true])
    · simp only [hr, if_false] at h
      exact ⟨c, rfl, by simpa using hr, (Prod.mk.inj h).2.symm⟩

theorem rewriteCredentialsAsDefault_inv (cp scp : GoString) (fs fs' : FS)
    (h : rewriteCredentialsAsDefault cp scp fs = (none, fs')) :
    ∃ t, fs.file scp = some t ∧ fs.refuses cp = false ∧
      fs' = { fs with
        file := setFile fs.file cp
          (strings.Replace t (fmt.SprintfBracket (filepath.Base scp)) "[default]".toList)
        log := fs.log ++ [Event.readFile scp, Event.writeFile cp
          (strings.Replace t (fmt.SprintfBracket (filepath.Base scp)) "[default]".toList)] } := by
  rw [rewriteCredentialsAsDefault_eq] at h
  cases hA : fs.file scp with
  | none =>
    rw [hA] at h
    exact absurd (congrArg Prod.fst h) (by simp only [reduceCtorEq, not_false_eq_true])
  | some c =>
    rw [hA] at h
    by_cases hr : fs.refuses cp = true
    · simp only [hr, if_true] at h
      exact absurd (congrArg Prod.fst h) (by simp only [reduceCtorEq, not_false_eq_true])
    · simp only [hr, if_false] at h
      exact ⟨c, rfl, by simpa using hr, (Prod.mk.inj h).2.symm⟩

theorem switch_steps (cfg creds prof : GoString) (fs fs' : FS)
    (h : backupAndReplaceAWSConfigs cfg creds prof fs = (none, fs')) :
    ∃ fs1 fs2 fs3,
      backupFile cfg fs = (none, fs1) ∧ backupFile creds fs1 = (none, fs2) ∧
      copyFile (filepath.Join [prof, "config".toList]) cfg fs2 = (none, fs3) ∧
      rewriteCredentialsAsDefault creds (filepath.Join [prof, "credentials".toList]) fs3
        = (none, fs') := by
  unfold backupAndReplaceAWSConfigs at h
  rcases h1 : backupFile cfg fs with ⟨_ | e1, fs1⟩
  · rw [h1] at h
    simp only at h
    rcases h2 : backupFile creds fs1 with ⟨_ | e2, fs2⟩
    · rw [h2] at h
      simp only at h
      rcases h3 : copyFile (filepath.Join [prof, "config".toList]) cfg fs2 with ⟨_ | e3, fs3⟩
      · rw [h3] at h
        simp only at h
        rcases h4 : rewriteCredentialsAsDefault creds
          (filepath.Join [prof, "credentials".toList]) fs3 with ⟨_ | e4, fs4⟩
        · rw [h4] at h
          simp only at h
          exact ⟨fs1, fs2, fs3, rfl, h2, h3, by rw [h4, (Prod.mk.inj h).2]⟩
        · rw [h4] at h
          exact absurd (congrArg Prod.fst h) (by simp only [reduceCtorEq, not_false_eq_true])
      · rw [h3] at h
        exact absurd (congrArg Prod.fst h) (by simp only [reduceCtorEq, not_false_eq_true])
    · rw [h2] at h
      exact absurd (congrArg Prod.fst h) (by simp only [reduceCtorEq, not_false_eq_true])
  · rw [h1] at h
    exact absurd (congrArg Prod.fst h) (by simp only [reduceCtorEq, not_false_eq_true])

theorem switch_inv (cfg creds prof : GoString) (fs fs' : FS)
    (h : backupAndReplaceAWSConfigs cfg creds prof fs = (none, fs')) :
    ∃ a b c t : GoString,
      fs.file cfg = some a ∧
      setFile fs.file (cfg ++ ".backup".toList) a creds = some b ∧
      fs.file (filepath.Join [prof, "config".toList]) = some c ∧
      setFile fs.file cfg c (filepath.Join [prof, "credentials".toList]) = some t ∧
      fs.refuses (cfg ++ ".backup".toList) = false ∧
      fs.refuses (creds ++ ".backup".toList) = false ∧
      fs.refuses cfg = false ∧
      fs.refuses creds = false ∧
      fs'.file =
        setFile (setFile (setFile (setFile fs.file (cfg ++ ".backup".toList) a)
          (creds ++ ".backup".toList) b) cfg c) creds
          (strings.Replace t "[credentials]".toList "[default]".toList) ∧
      fs'.log = fs.log ++
        [Event.readFile cfg, Event.writeFile (cfg ++ ".backup".toList) a,
         Event.readFile creds, Event.writeFile (creds ++ ".backup".toList) b,
         Event.readFile (filepath.Join [prof, "config".toList]), Event.writeFile cfg c,
         Event.readFile (filepath.Join [prof, "credentials".toList]),
         Event.writeFile creds (strings.Replace t "[credentials]".toList "[default]".toList)] := by
  obtain ⟨fs1, fs2, fs3, h1, h2, h3, h4⟩ := switch_steps cfg creds prof fs fs' h
  obtain ⟨a, ha, hra, rfl⟩ := backupFile_inv _ _ _ h1
  obtain ⟨b, hb, hrb, rfl⟩ := backupFile_inv _ _ _ h2
  obtain ⟨c, hc, hrc, rfl⟩ := copyFile_inv _ _ _ _ h3
  obtain ⟨t, ht, hrt, rfl⟩ := rewriteCredentialsAsDefault_inv _ _ _ _ h4
  simp only at hb hrb hc hrc ht hrt
  rw [setFile_ne _ _ _ _ (pc_ne_backup prof creds), setFile_ne _ _ _ _ (pc_ne_backup prof cfg)] at hc
  rw [token_eq]
  refine ⟨a, b, c, t, ha, hb, hc, ?_, hra, hrb, hrc, hrt, rfl, ?_⟩
  · rw [← ht]
    simp only [setFile, pr_ne_backup prof creds, pr_ne_backup prof cfg, if_false]
  · simp only [List.append_assoc, List.cons_append, List.nil_append]


theorem Confined.refl (S : List GoString) (fs : FS) : Confined S fs fs :=
  ⟨fun _ _ => rfl, [], by simp, by simp⟩

theorem Confined.trans {S : List GoString} {fs1 fs2 fs3 : FS}
    (h12 : Confined S fs1 fs2) (h23 : Confined S fs2 fs3) : Confined S fs1 fs3 := by
  obtain ⟨hf12, e12, hl12, hw12⟩ := h12
  obtain ⟨hf23, e23, hl23, hw23⟩ := h23
  refine ⟨fun q hq => by rw [hf23 q hq, hf12 q hq], e12 ++ e23, ?_, ?_⟩
  · rw [hl23, hl12, List.append_assoc]
  · intro e he
    rcases List.mem_append.mp he with h | h
    · exact hw12 e h
    · exact hw23 e h

theorem Confined.mono {S T : List GoString} {fs fs' : FS} (hST : ∀ p, p ∈ S → p ∈ T)
    (h : Confined S fs fs') : Confined T fs fs' := by
  obtain ⟨hf, evs, hl, hw⟩ := h
  exact ⟨fun q hq => hf q (fun hqs => hq (hST q hqs)), evs, hl,
    fun e he hwr => hST _ (hw e he hwr)⟩

theorem backupFile_confined (p : GoString) (fs : FS) :
    Confined [p ++ ".backup".toList] fs (backupFile p fs).2 := by
  rw [backupFile_eq]
  cases fs.file p with
  | none =>
    refine ⟨fun _ _ => rfl, [Event.readFile p], rfl, ?_⟩
    intro e he hw
    rw [List.mem_singleton.mp he] at hw
    exact absurd hw (by simp [Event.isWrite])
  | some c =>
    by_cases hr : fs.refuses (p ++ ".backup".toList) = true
    · simp only [hr, if_true]
      refine ⟨fun _ _ => rfl, _, rfl, ?_⟩
      intro e he hw
      rcases List.mem_cons.mp he with h | h
      · rw [h] at hw; exact absurd hw (by simp [Event.isWrite])
      · rw [List.mem_singleton.mp h]; exact List.mem_singleton.mpr rfl
    · simp only [hr, if_false]
      refine ⟨fun q hq => setFile_ne _ _ _ _ (fun h => hq (List.mem_singleton.mpr h)), _, rfl, ?_⟩
      intro e he hw
      rcases List.mem_cons.mp he with h | h
      · rw [h] at hw; exact absurd hw (by simp [Event.isWrite])
      · rw [List.mem_singleton.mp h]; exact List.mem_singleton.mpr rfl

theorem copyFile_confined (src dst : GoString) (fs : FS) :
    Confined [dst] fs (copyFile src dst fs).2 := by
  rw [copyFile_eq]
  cases fs.file src with
  | none =>
    refine ⟨fun _ _ => rfl, [Event.readFile src], rfl, ?_⟩
    intro e he hw
    rw [List.mem_singleton.mp he] at hw
    exact absurd hw (by simp [Event.isWrite])
  | some c =>
    by_cases hr : fs.refuses dst = true
    · simp only [hr, if_true]
      refine ⟨fun _ _ => rfl, _, rfl, ?_⟩
      intro e he hw
      rcases List.mem_cons.mp he with h | h
      · rw [h] at hw; exact absurd hw (by simp [Event.isWrite])
      · rw [List.mem_singleton.mp h]; exact List.mem_singleton.mpr rfl
    · simp only [hr, if_false]
      refine ⟨fun q hq => setFile_ne _ _ _ _ (fun h => hq (List.mem_singleton.mpr h)), _, rfl, ?_⟩
      intro e he hw
      rcases List.mem_cons.mp he with h | h
      · rw [h] at hw; exact absurd hw (by simp [Event.isWrite])
      · rw [List.mem_singleton.mp h]; exact List.mem_singleton.mpr rfl

theorem rewriteCredentialsAsDefault_confined (cp scp : GoString) (fs : FS) :
    Confined [cp] fs (rewriteCredentialsAsDefault cp scp fs).2 := by
  rw [rewriteCredentialsAsDefault_eq]
  cases fs.file scp with
  | none =>
    refine ⟨fun _ _ => rfl, [Event.readFile scp], rfl, ?_⟩
    intro e he hw
    rw [List.mem_singleton.mp he] at hw
    exact absurd hw (by simp [Event.isWrite])
  | some c =>
    by_cases hr : fs.refuses cp = true
    · simp only [hr, if_true]
      refine ⟨fun _ _ => rfl, _, rfl, ?_⟩
      intro e he hw
      rcases List.mem_cons.mp he with h | h
      · rw [h] at hw; exact absurd hw (by simp [Event.isWrite])
      · rw [List.mem_singleton.mp h]; exact List.mem_singleton.mpr rfl
    · simp only [hr, if_false]
      refine ⟨fun q hq => setFile_ne _ _ _ _ (fun h => hq (List.mem_singleton.mpr h)), _, rfl, ?_⟩
      intro e he hw
      rcases List.mem_cons.mp he with h | h
      · rw [h] at hw; exact absurd hw (by simp [Event.isWrite])
      · rw [List.mem_singleton.mp h]; exact List.mem_singleton.mpr rfl

theorem switch_confined (cfg creds prof : GoString) (fs : FS) :
    Confined [cfg, creds, cfg ++ ".backup".toList, creds ++ ".backup".toList] fs
      (backupAndReplaceAWSConfigs cfg creds prof fs).2 := by
  have s1 := Confined.mono
    (T := [cfg, creds, cfg ++ ".backup".toList, creds ++ ".backup".toList])
    (fun p hp => by rw [List.mem_singleton.mp hp]; simp) (backupFile_confined cfg fs)
  have s2 := fun fs1 => Confined.mono
    (T := [cfg, creds, cfg ++ ".backup".toList, creds ++ ".backup".toList])
    (fun p hp => by rw [List.mem_singleton.mp hp]; simp) (backupFile_confined creds fs1)
  have s3 := fun fs2 => Confined.mono
    (T := [cfg, creds, cfg ++ ".backup".toList, creds ++ ".backup".toList])
    (fun p hp => by rw [List.mem_singleton.mp hp]; simp)
    (copyFile_confined (filepath.Join [prof, "config".toList]) cfg fs2)
  have s4 := fun fs3 => Confined.mono
    (T := [cfg, creds, cfg ++ ".backup".toList, creds ++ ".backup".toList])
    (fun p hp => by rw [List.mem_singleton.mp hp]; simp)
    (rewriteCredentialsAsDefault_confined creds
      (filepath.Join [prof, "credentials".toList]) fs3)
  unfold backupAndReplaceAWSConfigs
  rcases h1 : backupFile cfg fs with ⟨_ | e1, fs1⟩
  · rw [h1] at s1
    rcases h2 : backupFile creds fs1 with ⟨_ | e2, fs2⟩
    · have t2 := s2 fs1
      rw [h2] at t2
      rcases h3 : copyFile (filepath.Join [prof, "config".toList]) cfg fs2 with ⟨_ | e3, fs3⟩
      · have t3 := s3 fs2
        rw [h3] at t3
        rcases h4 : rewriteCredentialsAsDefault creds
          (filepath.Join [prof, "credentials".toList]) fs3 with ⟨_ | e4, fs4⟩
        · have t4 := s4 fs3
          rw [h4] at t4
          simp only [h2, h3, h4]
          exact (s1.trans t2).trans (t3.trans t4)
        · have t4 := s4 fs3
          rw [h4] at t4
          simp only [h2, h3, h4]
          exact (s1.trans t2).trans (t3.trans t4)
      · have t3 := s3 fs2
        rw [h3] at t3
        simp only [h2, h3]
        exact (s1.trans t2).trans t3
    · have t2 := s2 fs1
      rw [h2] at t2
      simp only [h2]
      exact s1.trans t2
  · rw [h1] at s1
    exact s1


/-! ## The switch, step by step -/

theorem ne_append_backup (p : GoString) : p ≠ p ++ ".backup".toList := by
  intro h
  have := congrArg List.length h
  simp at this

theorem backupFile_ok (p c : GoString) (fs : FS) (hc : fs.file p = some c)
    (hr : fs.refuses (p ++ ".backup".toList) = false) :
    backupFile p fs = (none, { fs with
      file := setFile fs.file (p ++ ".backup".toList) c
      log := fs.log ++ [Event.readFile p, Event.writeFile (p ++ ".backup".toList) c] }) := by
  rw [backupFile_eq, hc]
  simp only [hr, Bool.false_eq_true, if_false]

theorem backupFile_missing (p : GoString) (fs : FS) (hc : fs.file p = none) :
    backupFile p fs =
      (some (Error.os "open" p), { fs with log := fs.log ++ [Event.readFile p] }) := by
  rw [backupFile_eq, hc]

theorem copyFile_ok (src dst c : GoString) (fs : FS) (hc : fs.file src = some c)
    (hr : fs.refuses dst = false) :
    copyFile src dst fs = (none, { fs with
      file := setFile fs.file dst c
      log := fs.log ++ [Event.readFile src, Event.writeFile dst c] }) := by
  rw [copyFile_eq, hc]
  simp only [hr, Bool.false_eq_true, if_false]

theorem rewriteCredentialsAsDefault_ok (cp scp t : GoString) (fs : FS)
    (hc : fs.file scp = some t) (hr : fs.refuses cp = false) :
    rewriteCredentialsAsDefault cp scp fs = (none, { fs with
      file := setFile fs.file cp
        (strings.Replace t (fmt.SprintfBracket (filepath.Base scp)) "[default]".toList)
      log := fs.log ++ [Event.readFile scp, Event.writeFile cp
        (strings.Replace t (fmt.SprintfBracket (filepath.Base scp)) "[default]".toList)] }) := by
  rw [rewriteCredentialsAsDefault_eq, hc]
  simp only [hr, Bool.false_eq_true, if_false]

theorem rewriteCredentialsAsDefault_missing (cp scp : GoString) (fs : FS)
    (hc : fs.file scp = none) :
    rewriteCredentialsAsDefault cp scp fs =
      (some (Error.os "open" scp), { fs with log := fs.log ++ [Event.readFile scp] }) := by
  rw [rewriteCredentialsAsDefault_eq, hc]

/-- The switch succeeds when each of its four reads finds a file and none of
its four writes is refused; the files afterwards are the four writes applied in
order. -/
theorem switch_ok (cfg creds prof a b c t : GoString) (fs : FS)
    (ha : fs.file cfg = some a)
    (hb : setFile fs.file (cfg ++ ".backup".toList) a creds = some b)
    (hc : fs.file (filepath.Join [prof, "config".toList]) = some c)
    (ht : setFile fs.file cfg c (filepath.Join [prof, "credentials".toList]) = some t)
    (hr1 : fs.refuses (cfg ++ ".backup".toList) = false)
    (hr2 : fs.refuses (creds ++ ".backup".toList) = false)
    (hr3 : fs.refuses cfg = false) (hr4 : fs.refuses creds = false) :
    ∃ fs', backupAndReplaceAWSConfigs cfg creds prof fs = (none, fs') ∧
      fs'.file =
        setFile (setFile (setFile (setFile fs.file (cfg ++ ".backup".toList) a)
          (creds ++ ".backup".toList) b) cfg c) creds
          (strings.Replace t "[credentials]".toList "[default]".toList) := by
  have e1 := backupFile_ok cfg a fs ha hr1
  have e2 := backupFile_ok creds b
    { fs with
      file := setFile fs.file (cfg ++ ".backup".toList) a
      log := fs.log ++ [Event.readFile cfg, Event.writeFile (cfg ++ ".backup".toList) a] }
    hb hr2
  have e3 := copyFile_ok (filepath.Join [prof, "config".toList]) cfg c
    { fs with
      file := setFile (setFile fs.file (cfg ++ ".backup".toList) a)
        (creds ++ ".backup".toList) b
      log := fs.log ++ [Event.readFile cfg, Event.writeFile (cfg ++ ".backup".toList) a]
        ++ [Event.readFile creds, Event.writeFile (creds ++ ".backup".toList) b] }
    (by
      show setFile (setFile fs.file (cfg ++ ".backup".toList) a)
        (creds ++ ".backup".toList) b (filepath.Join [prof, "config".toList]) = some c
      rw [setFile_ne _ _ _ _ (pc_ne_backup prof creds),
        setFile_ne _ _ _ _ (pc_ne_backup prof cfg)]
      exact hc) hr3
  have e4 := rewriteCredentialsAsDefault_ok creds
    (filepath.Join [prof, "credentials".toList]) t
    { fs with
      file := setFile (setFile (setFile fs.file (cfg ++ ".backup".toList) a)
        (creds ++ ".backup".toList) b) cfg c
      log := fs.log ++ [Event.readFile cfg, Event.writeFile (cfg ++ ".backup".toList) a]
        ++ [Event.readFile creds, Event.writeFile (creds ++ ".backup".toList) b]
        ++ [Event.readFile (filepath.Join [prof, "config".toList]), Event.writeFile cfg c] }
    (by
      rw [← ht]
      simp only [setFile, pr_ne_backup prof creds, pr_ne_backup prof cfg, if_false]) hr4
  unfold backupAndReplaceAWSConfigs
  rw [e1]
  simp only
  rw [e2]
  simp only
  rw [e3]
  simp only
  rw [e4]
  simp only [token_eq]
  exact ⟨_, rfl, rfl⟩

/-- After a successful switch each backup holds what the live file held before,
provided neither live path is the backup path of the other. -/
theorem switch_backups (cfg creds prof : GoString) (fs fs' : FS)
    (h : backupAndReplaceAWSConfigs cfg creds prof fs = (none, fs'))
    (h1 : creds ≠ cfg ++ ".backup".toList) (h2 : cfg ≠ creds ++ ".backup".toList) :
    fs'.file (cfg ++ ".backup".toList) = fs.file cfg ∧
      fs'.file (creds ++ ".backup".toList) = fs.file creds := by
  obtain ⟨a, b, c, t, ha, hb, hc, ht, -, -, -, -, hf, -⟩ := switch_inv cfg creds prof fs fs' h
  rw [setFile_ne _ _ _ _ h1] at hb
  rw [hf]
  constructor
  · rw [setFile_ne _ _ _ _ h1.symm, setFile_ne _ _ _ _ (ne_append_backup cfg).symm]
    by_cases hcc : cfg = creds
    · subst hcc
      rw [setFile_same, ← hb, ha]
    · rw [setFile_ne _ _ _ _ (fun hh => hcc (List.append_cancel_right hh)), setFile_same, ha]
  · rw [setFile_ne _ _ _ _ (ne_append_backup creds).symm, setFile_ne _ _ _ _ h2.symm,
      setFile_same, hb]

/-- After a successful switch the live files hold the profile's `config` and the
rewritten profile `credentials`, provided the live paths differ from each other
and the live config path is not the profile's `credentials`. -/
theorem switch_installed (cfg creds prof : GoString) (fs fs' : FS)
    (h : backupAndReplaceAWSConfigs cfg creds prof fs = (none, fs'))
    (h1 : cfg ≠ creds) (h2 : filepath.Join [prof, "credentials".toList] ≠ cfg) :
    fs'.file cfg = fs.file (filepath.Join [prof, "config".toList]) ∧
      ∃ t, fs.file (filepath.Join [prof, "credentials".toList]) = some t ∧
        fs'.file creds = some (strings.Replace t "[credentials]".toList "[default]".toList) := by
  obtain ⟨a, b, c, t, ha, hb, hc, ht, -, -, -, -, hf, -⟩ := switch_inv cfg creds prof fs fs' h
  rw [setFile_ne _ _ _ _ h2] at ht
  rw [hf]
  exact ⟨by rw [setFile_ne _ _ _ _ h1, setFile_same, hc], t, ht, setFile_same _ _ _⟩

/-! ## The live paths of `main` -/

theorem live_ne (homeDir : GoString) : awsConfigPath homeDir ≠ awsCredentialsPath homeDir :=
  ne_of_last (last_awsConfigPath homeDir) (last_awsCredentialsPath homeDir) (by decide)

theorem liveCredentials_ne_backup (homeDir p : GoString) :
    awsCredentialsPath homeDir ≠ p ++ ".backup".toList :=
  ne_of_last (last_awsCredentialsPath homeDir) (last_of_backup p) (by decide)

theorem liveConfig_ne_backup (homeDir p : GoString) :
    awsConfigPath homeDir ≠ p ++ ".backup".toList :=
  ne_of_last (last_awsConfigPath homeDir) (last_of_backup p) (by decide)

theorem profileCredentials_ne_liveConfig (prof homeDir : GoString) :
    filepath.Join [prof, "credentials".toList] ≠ awsConfigPath homeDir :=
  ne_of_last (last_profileCredentials prof) (last_awsConfigPath homeDir) (by decide)

theorem profileConfig_ne_liveCredentials (prof homeDir : GoString) :
    filepath.Join [prof, "config".toList] ≠ awsCredentialsPath homeDir :=
  ne_of_last (last_profileConfig prof) (last_awsCredentialsPath homeDir) (by decide)


/-! ## Failing switches -/

theorem switch_snd_cases (cfg creds prof : GoString) (fs : FS) :
    (backupAndReplaceAWSConfigs cfg creds prof fs).2 = (backupFile cfg fs).2 ∨
    ((backupFile cfg fs).1 = none ∧
      ((backupAndReplaceAWSConfigs cfg creds prof fs).2
          = (backupFile creds (backupFile cfg fs).2).2 ∨
       ((backupFile creds (backupFile cfg fs).2).1 = none ∧
        ((backupAndReplaceAWSConfigs cfg creds prof fs).2
            = (copyFile (filepath.Join [prof, "config".toList]) cfg
                (backupFile creds (backupFile cfg fs).2).2).2 ∨
         ((copyFile (filepath.Join [prof, "config".toList]) cfg
                (backupFile creds (backupFile cfg fs).2).2).1 = none ∧
          (backupAndReplaceAWSConfigs cfg creds prof fs).2
            = (rewriteCredentialsAsDefault creds (filepath.Join [prof, "credentials".toList])
                (copyFile (filepath.Join [prof, "config".toList]) cfg
                  (backupFile creds (backupFile cfg fs).2).2).2).2))))) := by
  unfold backupAndReplaceAWSConfigs
  rcases h1 : backupFile cfg fs with ⟨_ | e1, fs1⟩
  · right
    refine ⟨rfl, ?_⟩
    simp only
    rcases h2 : backupFile creds fs1 with ⟨_ | e2, fs2⟩
    · right
      refine ⟨rfl, ?_⟩
      simp only
      rcases h3 : copyFile (filepath.Join [prof, "config".toList]) cfg fs2 with ⟨_ | e3, fs3⟩
      · right
        refine ⟨rfl, ?_⟩
        simp only
        rcases h4 : rewriteCredentialsAsDefault creds
          (filepath.Join [prof, "credentials".toList]) fs3 with ⟨_ | e4, fs4⟩
        · rfl
        · rfl
      · left; rfl
    · left; rfl
  · left; rfl

theorem Confined.file_eq {S : List GoString} {fs fs' : FS} (h : Confined S fs fs')
    (q : GoString) (hq : q ∉ S) : fs'.file q = fs.file q :=
  h.1 q hq

/-- A switch whose live config is missing reads that path and does nothing else. -/
theorem switch_config_missing (cfg creds prof : GoString) (fs : FS) (h : fs.file cfg = none) :
    backupAndReplaceAWSConfigs cfg creds prof fs =
      (some (Error.wrap "failed to backup config" (Error.os "open" cfg)),
        { fs with log := fs.log ++ [Event.readFile cfg] }) := by
  unfold backupAndReplaceAWSConfigs
  rw [backupFile_missing cfg fs h]

/-- A switch whose live credentials are missing fails. -/
theorem switch_credentials_missing_fails (cfg creds prof : GoString) (fs : FS)
    (h : fs.file creds = none) (hne : creds ≠ cfg ++ ".backup".toList) :
    (backupAndReplaceAWSConfigs cfg creds prof fs).1 ≠ none := by
  intro hn
  have hp : backupAndReplaceAWSConfigs cfg creds prof fs
      = (none, (backupAndReplaceAWSConfigs cfg creds prof fs).2) := by
    rw [← hn]
  obtain ⟨a, b, c, t, -, hb, -⟩ := switch_inv cfg creds prof fs _ hp
  rw [setFile_ne _ _ _ _ hne, h] at hb
  exact absurd hb (by simp only [reduceCtorEq, not_false_eq_true])

/-- A switch whose live credentials are missing writes at most the config backup. -/
theorem switch_credentials_missing_confined (cfg creds prof : GoString) (fs : FS)
    (h : fs.file creds = none) (hne : creds ≠ cfg ++ ".backup".toList) :
    Confined [cfg ++ ".backup".toList] fs (backupAndReplaceAWSConfigs cfg creds prof fs).2 := by
  have c1 := backupFile_confined cfg fs
  have h1 : (backupFile cfg fs).2.file creds = none := by
    rw [c1.file_eq creds (by simpa using hne), h]
  have e2 := backupFile_missing creds _ h1
  rcases switch_snd_cases cfg creds prof fs with hs | ⟨-, hs | ⟨hs, -⟩⟩
  · rw [hs]; exact c1
  · rw [hs, e2]
    exact c1.trans ⟨fun _ _ => rfl, [Event.readFile creds], rfl, by
      intro e he hw
      rw [List.mem_singleton.mp he] at hw
      exact absurd hw (by simp [Event.isWrite])⟩
  · rw [e2] at hs
    exact absurd hs (by simp only [reduceCtorEq, not_false_eq_true])

/-- A switch to a profile without `credentials` fails. -/
theorem switch_profile_credentials_missing_fails (cfg creds prof : GoString) (fs : FS)
    (h : fs.file (filepath.Join [prof, "credentials".toList]) = none)
    (hne : filepath.Join [prof, "credentials".toList] ≠ cfg) :
    (backupAndReplaceAWSConfigs cfg creds prof fs).1 ≠ none := by
  intro hn
  have hp : backupAndReplaceAWSConfigs cfg creds prof fs
      = (none, (backupAndReplaceAWSConfigs cfg creds prof fs).2) := by
    rw [← hn]
  obtain ⟨a, b, c, t, -, -, -, ht, -⟩ := switch_inv cfg creds prof fs _ hp
  rw [setFile_ne _ _ _ _ hne, h] at ht
  exact absurd ht (by simp only [reduceCtorEq, not_false_eq_true])

/-- A switch to a profile without `credentials` never writes the live credentials. -/
theorem switch_profile_credentials_missing_confined (cfg creds prof : GoString) (fs : FS)
    (h : fs.file (filepath.Join [prof, "credentials".toList]) = none)
    (hne : filepath.Join [prof, "credentials".toList] ≠ cfg) :
    Confined [cfg, cfg ++ ".backup".toList, creds ++ ".backup".toList] fs
      (backupAndReplaceAWSConfigs cfg creds prof fs).2 := by
  have c1 : Confined [cfg, cfg ++ ".backup".toList, creds ++ ".backup".toList] fs
      (backupFile cfg fs).2 :=
    Confined.mono (fun p hp => by rw [List.mem_singleton.mp hp]; simp) (backupFile_confined cfg fs)
  have c2 : Confined [cfg, cfg ++ ".backup".toList, creds ++ ".backup".toList]
      (backupFile cfg fs).2 (backupFile creds (backupFile cfg fs).2).2 :=
    Confined.mono (fun p hp => by rw [List.mem_singleton.mp hp]; simp)
      (backupFile_confined creds _)
  have c3 : Confined [cfg, cfg ++ ".backup".toList, creds ++ ".backup".toList]
      (backupFile creds (backupFile cfg fs).2).2
      (copyFile (filepath.Join [prof, "config".toList]) cfg
        (backupFile creds (backupFile cfg fs).2).2).2 :=
    Confined.mono (fun p hp => by rw [List.mem_singleton.mp hp]; simp)
      (copyFile_confined _ cfg _)
  have c123 := (c1.trans c2).trans c3
  have hnot : filepath.Join [prof, "credentials".toList] ∉
      [cfg, cfg ++ ".backup".toList, creds ++ ".backup".toList] := by
    simp only [List.mem_cons, List.mem_singleton, List.not_mem_nil, or_false, not_or]
    exact ⟨hne, pr_ne_backup prof cfg, pr_ne_backup prof creds⟩
  have h3 := c123.file_eq _ hnot
  rw [h] at h3
  have e4 := rewriteCredentialsAsDefault_missing creds _ _ h3
  rcases switch_snd_cases cfg creds prof fs with hs | ⟨-, hs | ⟨-, hs | ⟨-, hs⟩⟩⟩
  · rw [hs]; exact c1
  · rw [hs]; exact c1.trans c2
  · rw [hs]; exact c123
  · rw [hs, e4]
    exact c123.trans ⟨fun _ _ => rfl,
      [Event.readFile (filepath.Join [prof, "credentials".toList])], rfl, by
      intro e he hw
      rw [List.mem_singleton.mp he] at hw
      exact absurd hw (by simp [Event.isWrite])⟩

/-- With the profile's `credentials` missing and no earlier write refused, the
live config has been overwritten when the switch fails. -/
theorem switch_partial (cfg creds prof a b c : GoString) (fs : FS)
    (ha : fs.file cfg = some a)
    (hb : setFile fs.file (cfg ++ ".backup".toList) a creds = some b)
    (hc : fs.file (filepath.Join [prof, "config".toList]) = some c)
    (hr1 : fs.refuses (cfg ++ ".backup".toList) = false)
    (hr2 : fs.refuses (creds ++ ".backup".toList) = false)
    (hr3 : fs.refuses cfg = false) (hne : cfg ≠ creds) :
    (backupAndReplaceAWSConfigs cfg creds prof fs).2.file cfg = some c := by
  have e1 := backupFile_ok cfg a fs ha hr1
  have e2 := backupFile_ok creds b
    { fs with
      file := setFile fs.file (cfg ++ ".backup".toList) a
      log := fs.log ++ [Event.readFile cfg, Event.writeFile (cfg ++ ".backup".toList) a] }
    hb hr2
  have e3 := copyFile_ok (filepath.Join [prof, "config".toList]) cfg c
    { fs with
      file := setFile (setFile fs.file (cfg ++ ".backup".toList) a)
        (creds ++ ".backup".toList) b
      log := fs.log ++ [Event.readFile cfg, Event.writeFile (cfg ++ ".backup".toList) a]
        ++ [Event.readFile creds, Event.writeFile (creds ++ ".backup".toList) b] }
    (by
      show setFile (setFile fs.file (cfg ++ ".backup".toList) a)
        (creds ++ ".backup".toList) b (filepath.Join [prof, "config".toList]) = some c
      rw [setFile_ne _ _ _ _ (pc_ne_backup prof creds),
        setFile_ne _ _ _ _ (pc_ne_backup prof cfg)]
      exact hc) hr3
  have c4 := rewriteCredentialsAsDefault_confined creds
    (filepath.Join [prof, "credentials".toList])
    { fs with
      file := setFile (setFile (setFile fs.file (cfg ++ ".backup".toList) a)
        (creds ++ ".backup".toList) b) cfg c
      log := fs.log ++ [Event.readFile cfg, Event.writeFile (cfg ++ ".backup".toList) a]
        ++ [Event.readFile creds, Event.writeFile (creds ++ ".backup".toList) b]
        ++ [Event.readFile (filepath.Join [prof, "config".toList]), Event.writeFile cfg c] }
  have h4 := c4.file_eq cfg (by simpa using hne)
  rw [show ({ fs with
      file := setFile (setFile (setFile fs.file (cfg ++ ".backup".toList) a)
        (creds ++ ".backup".toList) b) cfg c
      log := fs.log ++ [Event.readFile cfg, Event.writeFile (cfg ++ ".backup".toList) a]
        ++ [Event.readFile creds, Event.writeFile (creds ++ ".backup".toList) b]
        ++ [Event.readFile (filepath.Join [prof, "config".toList]), Event.writeFile cfg c] }
      : FS).file cfg = some c from setFile_same _ _ _] at h4
  unfold backupAndReplaceAWSConfigs
  rw [e1]
  simp only
  rw [e2]
  simp only
  rw [e3]
  simp only
  rcases h5 : rewriteCredentialsAsDefault creds
    (filepath.Join [prof, "credentials".toList]) _ with ⟨_ | e5, fs5⟩
  · rw [h5] at h4
    exact h4
  · rw [h5] at h4
    exact h4


/-! ## Listing the profiles, and `main` -/

theorem foldl_configDirs (files : List DirEntry) (init : List GoString) :
    files.foldl
      (fun configDirs file => if file.IsDir then configDirs ++ [file.Name] else configDirs) init
      = init ++ (files.filter (fun e => e.IsDir)).map (fun e => e.Name) := by
  induction files generalizing init with
  | nil => simp
  | cons f fs ih =>
    rw [List.foldl_cons, ih]
    by_cases hf : f.IsDir = true
    · simp [hf, List.filter_cons]
    · simp [hf, List.filter_cons]

theorem getConfigDirs_ok (dir : GoString) (fs : FS) (files : List DirEntry)
    (h : fs.dirEntries dir = (files, none)) :
    getConfigDirs dir fs =
      (Except.ok ((files.filter (fun e => e.IsDir)).map (fun e => e.Name)),
        { fs with log := fs.log ++ [Event.readDir dir] }) := by
  unfold getConfigDirs os.ReadDir
  rw [h]
  simp only [foldl_configDirs, List.nil_append]

theorem getConfigDirs_error (dir : GoString) (fs : FS) (files : List DirEntry) (err : Error)
    (h : fs.dirEntries dir = (files, some err)) :
    getConfigDirs dir fs =
      (Except.error err, { fs with log := fs.log ++ [Event.readDir dir] }) := by
  unfold getConfigDirs os.ReadDir
  rw [h]

theorem mainSelectAndSwitch_cancelled (env : Env) (homeDir : GoString) (fs : FS)
    (files : List DirEntry) (err : Error)
    (hde : fs.dirEntries (configsPath homeDir) = (files, none))
    (hf : env.Find ((files.filter (fun e => e.IsDir)).map (fun e => e.Name))
      = Except.error err) :
    mainSelectAndSwitch env homeDir fs =
      (Outcome.noSelection err,
        { fs with log := fs.log ++ [Event.readDir (configsPath homeDir)] }) := by
  unfold mainSelectAndSwitch
  rw [getConfigDirs_ok _ fs files hde]
  simp only [hf]

theorem main_cancelled (env : Env) (fs : FS) (homeDir : GoString)
    (files : List DirEntry) (err : Error)
    (hh : env.UserHomeDir = Except.ok homeDir)
    (hde : fs.dirEntries (configsPath homeDir) = (files, none))
    (hm : fs.notExist (configsPath homeDir) = true → fs.mkdirErr (configsPath homeDir) = none)
    (hf : env.Find ((files.filter (fun e => e.IsDir)).map (fun e => e.Name))
      = Except.error err) :
    main env fs =
      (Outcome.noSelection err,
        { fs with log := fs.log ++
            (if fs.notExist (configsPath homeDir) = true then
              [Event.stat (configsPath homeDir), Event.mkdir (configsPath homeDir),
               Event.readDir (configsPath homeDir)]
             else
              [Event.stat (configsPath homeDir), Event.readDir (configsPath homeDir)]) }) := by
  unfold main
  rw [hh]
  simp only [os.StatIsNotExist]
  by_cases hn : fs.notExist (configsPath homeDir) = true
  · simp only [hn, os.Mkdir, hm hn, if_true]
    rw [mainSelectAndSwitch_cancelled env homeDir
      { fs with log := fs.log ++ [Event.stat (configsPath homeDir)]
          ++ [Event.mkdir (configsPath homeDir)] } files err hde hf]
    simp only [List.append_assoc, List.cons_append, List.nil_append]
  · have hn2 : fs.notExist (configsPath homeDir) = false := by simpa using hn
    simp only [hn2, Bool.false_eq_true, if_false]
    rw [mainSelectAndSwitch_cancelled env homeDir
      { fs with log := fs.log ++ [Event.stat (configsPath homeDir)] } files err hde hf]
    simp only [List.append_assoc, List.cons_append, List.nil_append]

/-! ## Lemmas on the switch with links -/

theorem Linked_switch_without_links (cfg creds prof : GoString) (fs : FS) :
    Linked.backupAndReplaceAWSConfigs (fun name => name) cfg creds prof fs
      = backupAndReplaceAWSConfigs cfg creds prof fs := by
  rfl

theorem ConfinedTo_trans {keys names : List GoString} {fs1 fs2 fs3 : FS}
    (h12 : ConfinedTo keys names fs1 fs2) (h23 : ConfinedTo keys names fs2 fs3) :
    ConfinedTo keys names fs1 fs3 := by
  obtain ⟨hf12, e12, hl12, hw12⟩ := h12
  obtain ⟨hf23, e23, hl23, hw23⟩ := h23
  refine ⟨fun q hq => by rw [hf23 q hq, hf12 q hq], e12 ++ e23, ?_, ?_⟩
  · rw [hl23, hl12, List.append_assoc]
  · intro e he
    rcases List.mem_append.mp he with h | h
    · exact hw12 e h
    · exact hw23 e h

theorem ConfinedTo_mono {K L N M : List GoString} {fs fs' : FS}
    (hk : ∀ p, p ∈ K → p ∈ L) (hn : ∀ p, p ∈ N → p ∈ M)
    (h : ConfinedTo K N fs fs') : ConfinedTo L M fs fs' := by
  obtain ⟨hf, evs, hl, hw⟩ := h
  exact ⟨fun q hq => hf q (fun hqs => hq (hk q hqs)), evs, hl,
    fun e he hwr => hn _ (hw e he hwr)⟩

theorem Linked_ReadFile_confined (target : GoString → GoString) (name : GoString) (fs : FS) :
    ConfinedTo [] [] fs (Linked.os.ReadFile target name fs).2 := by
  have hlog : ∀ e ∈ [Event.readFile name], e.isWrite = true → e.path ∈ ([] : List GoString) := by
    intro e he hw
    rw [List.mem_singleton.mp he] at hw
    exact absurd hw (by simp [Event.isWrite])
  unfold Linked.os.ReadFile
  cases fs.file (target name) with
  | none => exact ⟨fun _ _ => rfl, _, rfl, hlog⟩
  | some c => exact ⟨fun _ _ => rfl, _, rfl, hlog⟩

theorem Linked_WriteFile_confined (target : GoString → GoString) (name data : GoString)
    (fs : FS) :
    ConfinedTo [target name] [name] fs (Linked.os.WriteFile target name data fs).2 := by
  have hlog : ∀ e ∈ [Event.writeFile name data], e.isWrite = true → e.path ∈ [name] := by
    intro e he _
    rw [List.mem_singleton.mp he]
    exact List.mem_singleton.mpr rfl
  unfold Linked.os.WriteFile
  by_cases hr : fs.refuses name = true
  · simp only [hr, if_true]
    exact ⟨fun _ _ => rfl, _, rfl, hlog⟩
  · simp only [hr, if_false]
    exact ⟨fun q hq => setFile_ne _ _ _ _ (fun h => hq (List.mem_singleton.mpr h)), _, rfl, hlog⟩

theorem Linked_read_then_write_confined (target : GoString → GoString)
    (src dst : GoString) (f : GoString → GoString) (fs : FS) (r : Option Error × FS)
    (h : r.2 = (Linked.os.ReadFile target src fs).2 ∨
      r.2 = (Linked.os.WriteFile target dst
        (f ((fs.file (target src)).getD [])) (Linked.os.ReadFile target src fs).2).2) :
    ConfinedTo [target dst] [dst] fs r.2 := by
  have hr : ConfinedTo [target dst] [dst] fs (Linked.os.ReadFile target src fs).2 :=
    ConfinedTo_mono (fun _ h => absurd h (List.not_mem_nil _))
      (fun _ h => absurd h (List.not_mem_nil _)) (Linked_ReadFile_confined target src fs)
  rcases h with h | h
  · rw [h]; exact hr
  · rw [h]; exact ConfinedTo_trans hr (Linked_WriteFile_confined target dst _ _)

theorem Linked_backupFile_confined (target : GoString → GoString) (p : GoString) (fs : FS) :
    ConfinedTo [target (p ++ ".backup".toList)] [p ++ ".backup".toList] fs
      (Linked.backupFile target p fs).2 := by
  apply Linked_read_then_write_confined target p (p ++ ".backup".toList) (fun c => c) fs
  unfold Linked.backupFile Linked.os.ReadFile
  cases h : fs.file (target p) with
  | none => left; rfl
  | some c => right; rfl

theorem Linked_copyFile_confined (target : GoString → GoString) (src dst : GoString) (fs : FS) :
    ConfinedTo [target dst] [dst] fs (Linked.copyFile target src dst fs).2 := by
  apply Linked_read_then_write_confined target src dst (fun c => c) fs
  unfold Linked.copyFile Linked.os.ReadFile
  cases h : fs.file (target src) with
  | none => left; rfl
  | some c =>
    right
    simp only [Option.getD]
    rcases hw : Linked.os.WriteFile target dst c
      { fs with log := fs.log ++ [Event.readFile src] } with ⟨_ | e, fs2⟩
    · rfl
    · rfl

theorem Linked_rewriteCredentialsAsDefault_confined (target : GoString → GoString)
    (cp scp : GoString) (fs : FS) :
    ConfinedTo [target cp] [cp] fs (Linked.rewriteCredentialsAsDefault target cp scp fs).2 := by
  apply Linked_read_then_write_confined target scp cp
    (fun c => strings.Replace c (fmt.SprintfBracket (filepath.Base scp)) "[default]".toList) fs
  unfold Linked.rewriteCredentialsAsDefault Linked.os.ReadFile
  cases h : fs.file (target scp) with
  | none => left; rfl
  | some c =>
    right
    simp only [Option.getD]
    rcases hw : Linked.os.WriteFile target cp
      (strings.Replace c (fmt.SprintfBracket (filepath.Base scp)) "[default]".toList)
      { fs with log := fs.log ++ [Event.readFile scp] } with ⟨_ | e, fs2⟩
    · rfl
    · rfl

theorem Linked_switch_confined (target : GoString → GoString) (cfg creds prof : GoString)
    (fs : FS) :
    ConfinedTo
      [target cfg, target creds, target (cfg ++ ".backup".toList),
        target (creds ++ ".backup".toList)]
      [cfg, creds, cfg ++ ".backup".toList, creds ++ ".backup".toList] fs
      (Linked.backupAndReplaceAWSConfigs target cfg creds prof fs).2 := by
  have s1 := ConfinedTo_mono
    (L := [target cfg, target creds, target (cfg ++ ".backup".toList),
        target (creds ++ ".backup".toList)])
    (M := [cfg, creds, cfg ++ ".backup".toList, creds ++ ".backup".toList])
    (fun p hp => by rw [List.mem_singleton.mp hp]; simp)
    (fun p hp => by rw [List.mem_singleton.mp hp]; simp)
    (Linked_backupFile_confined target cfg fs)
  have s2 := fun fs1 => ConfinedTo_mono
    (L := [target cfg, target creds, target (cfg ++ ".backup".toList),
        target (creds ++ ".backup".toList)])
    (M := [cfg, creds, cfg ++ ".backup".toList, creds ++ ".backup".toList])
    (fun p hp => by rw [List.mem_singleton.mp hp]; simp)
    (fun p hp => by rw [List.mem_singleton.mp hp]; simp)
    (Linked_backupFile_confined target creds fs1)
  have s3 := fun fs2 => ConfinedTo_mono
    (L := [target cfg, target creds, target (cfg ++ ".backup".toList),
        target (creds ++ ".backup".toList)])
    (M := [cfg, creds, cfg ++ ".backup".toList, creds ++ ".backup".toList])
    (fun p hp => by rw [List.mem_singleton.mp hp]; simp)
    (fun p hp => by rw [List.mem_singleton.mp hp]; simp)
    (Linked_copyFile_confined target (filepath.Join [prof, "config".toList]) cfg fs2)
  have s4 := fun fs3 => ConfinedTo_mono
    (L := [target cfg, target creds, target (cfg ++ ".backup".toList),
        target (creds ++ ".backup".toList)])
    (M := [cfg, creds, cfg ++ ".backup".toList, creds ++ ".backup".toList])
    (fun p hp => by rw [List.mem_singleton.mp hp]; simp)
    (fun p hp => by rw [List.mem_singleton.mp hp]; simp)
    (Linked_rewriteCredentialsAsDefault_confined target creds
      (filepath.Join [prof, "credentials".toList]) fs3)
  unfold Linked.backupAndReplaceAWSConfigs
  rcases h1 : Linked.backupFile target cfg fs with ⟨_ | e1, fs1⟩
  · rw [h1] at s1
    have t2 := s2 fs1
    rcases h2 : Linked.backupFile target creds fs1 with ⟨_ | e2, fs2⟩
    · rw [h2] at t2
      have t3 := s3 fs2
      rcases h3 : Linked.copyFile target (filepath.Join [prof, "config".toList]) cfg fs2
        with ⟨_ | e3, fs3⟩
      · rw [h3] at t3
        have t4 := s4 fs3
        rcases h4 : Linked.rewriteCredentialsAsDefault target creds
          (filepath.Join [prof, "credentials".toList]) fs3 with ⟨_ | e4, fs4⟩
        · rw [h4] at t4
          simp only [h2, h3, h4]
          exact ConfinedTo_trans (ConfinedTo_trans s1 t2) (ConfinedTo_trans t3 t4)
        · rw [h4] at t4
          simp only [h2, h3, h4]
          exact ConfinedTo_trans (ConfinedTo_trans s1 t2) (ConfinedTo_trans t3 t4)
      · rw [h3] at t3
        simp only [h2, h3]
        exact ConfinedTo_trans (ConfinedTo_trans s1 t2) t3
    · rw [h2] at t2
      simp only [h2]
      exact ConfinedTo_trans s1 t2
  · rw [h1] at s1
    exact s1

/-! ## The claims -/

set_option maxRecDepth 100000

/-- C1 (the code at the claim's own witness): switching to the profile directory
`staging`, whose credentials are `[staging]\naws_access_key_id=X\naws_secret_access_key=Y\n`,
succeeds and leaves the live credentials file with the header `[staging]`: the
text is installed unchanged, not with `[default]` in place of `[staging]`; the
same holds for a run of `main` in which the operator selects `staging`. -/
theorem C1_staging_header_not_rewritten :
    filepath.Join [configsPath homeU, "staging".toList] = stagingDir ∧
    (backupAndReplaceAWSConfigs (awsConfigPath homeU) (awsCredentialsPath homeU)
        stagingDir stagingFS).1 = none ∧
    (backupAndReplaceAWSConfigs (awsConfigPath homeU) (awsCredentialsPath homeU)
        stagingDir stagingFS).2.file (awsCredentialsPath homeU)
      = some "[staging]\naws_access_key_id=X\naws_secret_access_key=Y\n".toList ∧
    (backupAndReplaceAWSConfigs (awsConfigPath homeU) (awsCredentialsPath homeU)
        stagingDir stagingFS).2.file (awsCredentialsPath homeU)
      ≠ some "[default]\naws_access_key_id=X\naws_secret_access_key=Y\n".toList ∧
    (main selectingEnv stagingStoreFS).1 = Outcome.switched "staging".toList [] ∧
    (main selectingEnv stagingStoreFS).2.file (awsCredentialsPath homeU)
      = some "[staging]\naws_access_key_id=X\naws_secret_access_key=Y\n".toList := by
  decide

/-- C2 (the code at a text without the profile's token): the credentials of the
profile `prod` are `[credentials]\naws_access_key_id=X\n`, which does not contain
`[prod]`; the switch succeeds and the live credentials file is
`[default]\naws_access_key_id=X\n`, not the profile's text. -/
theorem C2_other_header_rewritten :
    filepath.Join [configsPath homeU, "prod".toList] = prodDir ∧
    prodFS.file (filepath.Join [prodDir, "credentials".toList])
      = some "[credentials]\naws_access_key_id=X\n".toList ∧
    strings.Index "[credentials]\naws_access_key_id=X\n".toList "[prod]".toList = none ∧
    (backupAndReplaceAWSConfigs (awsConfigPath homeU) (awsCredentialsPath homeU)
        prodDir prodFS).1 = none ∧
    (backupAndReplaceAWSConfigs (awsConfigPath homeU) (awsCredentialsPath homeU)
        prodDir prodFS).2.file (awsCredentialsPath homeU)
      = some "[default]\naws_access_key_id=X\n".toList := by
  decide

/-- C10: the token searched for is `[credentials]` whatever the profile
directory; `rewriteCredentialsAsDefault`, called as the switch calls it, writes
the profile's credentials text `t` with `[credentials]` replaced once; after a
successful switch of the live files of `main` the live credentials file holds
`t` with the first `[credentials]` replaced by `[default]`, and `t` itself when
`[credentials]` does not occur; two profiles with the same credentials text give
the same live credentials. -/
theorem C10_token_is_credentials (homeDir : GoString) :
    (∀ prof : GoString,
      fmt.SprintfBracket (filepath.Base (filepath.Join [prof, "credentials".toList]))
        = "[credentials]".toList) ∧
    (∀ (cp prof t : GoString) (fs : FS),
      fs.file (filepath.Join [prof, "credentials".toList]) = some t →
      fs.refuses cp = false →
      (rewriteCredentialsAsDefault cp (filepath.Join [prof, "credentials".toList]) fs).1 = none ∧
      (rewriteCredentialsAsDefault cp (filepath.Join [prof, "credentials".toList]) fs).2.file cp
        = some (strings.Replace t "[credentials]".toList "[default]".toList)) ∧
    (∀ (prof : GoString) (fs fs' : FS),
      backupAndReplaceAWSConfigs (awsConfigPath homeDir) (awsCredentialsPath homeDir) prof fs
        = (none, fs') →
      ∃ t, fs.file (filepath.Join [prof, "credentials".toList]) = some t ∧
        fs'.file (awsCredentialsPath homeDir)
          = some (strings.Replace t "[credentials]".toList "[default]".toList) ∧
        (∀ a b : GoString, t = a ++ "[credentials]".toList ++ b →
          (∀ a1 b1 : GoString, t = a1 ++ "[credentials]".toList ++ b1 → a.length ≤ a1.length) →
          fs'.file (awsCredentialsPath homeDir) = some (a ++ "[default]".toList ++ b)) ∧
        ((∀ a b : GoString, t ≠ a ++ "[credentials]".toList ++ b) →
          fs'.file (awsCredentialsPath homeDir) = some t)) ∧
    (∀ (prof1 prof2 : GoString) (fsA fsA' fsB fsB' : FS),
      backupAndReplaceAWSConfigs (awsConfigPath homeDir) (awsCredentialsPath homeDir) prof1 fsA
        = (none, fsA') →
      backupAndReplaceAWSConfigs (awsConfigPath homeDir) (awsCredentialsPath homeDir) prof2 fsB
        = (none, fsB') →
      fsA.file (filepath.Join [prof1, "credentials".toList])
        = fsB.file (filepath.Join [prof2, "credentials".toList]) →
      fsA'.file (awsCredentialsPath homeDir) = fsB'.file (awsCredentialsPath homeDir)) := by
  refine ⟨token_eq, ?_, ?_, ?_⟩
  · intro cp prof t fs ht hr
    rw [rewriteCredentialsAsDefault_ok cp _ t fs ht hr, token_eq]
    exact ⟨rfl, setFile_same _ _ _⟩
  · intro prof fs fs' h
    obtain ⟨-, t, ht, hf⟩ := switch_installed _ _ prof fs fs' h (live_ne homeDir)
      (profileCredentials_ne_liveConfig prof homeDir)
    refine ⟨t, ht, hf, ?_, ?_⟩
    · intro a b hab hmin
      rw [hf, Replace_first t _ _ a b hab hmin]
    · intro habs
      rw [hf, Replace_absent t _ _ habs]
  · intro prof1 prof2 fsA fsA' fsB fsB' hA hB heq
    obtain ⟨-, tA, htA, hfA⟩ := switch_installed _ _ prof1 fsA fsA' hA (live_ne homeDir)
      (profileCredentials_ne_liveConfig prof1 homeDir)
    obtain ⟨-, tB, htB, hfB⟩ := switch_installed _ _ prof2 fsB fsB' hB (live_ne homeDir)
      (profileCredentials_ne_liveConfig prof2 homeDir)
    rw [htA, htB] at heq
    rw [hfA, hfB, Option.some.inj heq]

/-- C10 at the profile `staging` (on `stagingFS`): the switch succeeds and the
live credentials are the profile's text with `[credentials]` replaced once,
here the text itself. -/
theorem C10_token_is_credentials_witness :
    backupAndReplaceAWSConfigs (awsConfigPath homeU) (awsCredentialsPath homeU) stagingDir
        stagingFS
      = (none, (backupAndReplaceAWSConfigs (awsConfigPath homeU) (awsCredentialsPath homeU)
          stagingDir stagingFS).2) ∧
    ∃ t, stagingFS.file (filepath.Join [stagingDir, "credentials".toList]) = some t ∧
      (backupAndReplaceAWSConfigs (awsConfigPath homeU) (awsCredentialsPath homeU)
          stagingDir stagingFS).2.file (awsCredentialsPath homeU)
        = some (strings.Replace t "[credentials]".toList "[default]".toList) ∧
      (∀ a b : GoString, t = a ++ "[credentials]".toList ++ b →
        (∀ a1 b1 : GoString, t = a1 ++ "[credentials]".toList ++ b1 → a.length ≤ a1.length) →
        (backupAndReplaceAWSConfigs (awsConfigPath homeU) (awsCredentialsPath homeU)
          stagingDir stagingFS).2.file (awsCredentialsPath homeU)
          = some (a ++ "[default]".toList ++ b)) ∧
      ((∀ a b : GoString, t ≠ a ++ "[credentials]".toList ++ b) →
        (backupAndReplaceAWSConfigs (awsConfigPath homeU) (awsCredentialsPath homeU)
          stagingDir stagingFS).2.file (awsCredentialsPath homeU) = some t) :=
  ⟨by rfl,
    (C10_token_is_credentials homeU).2.2.1 stagingDir stagingFS
      (backupAndReplaceAWSConfigs (awsConfigPath homeU) (awsCredentialsPath homeU)
        stagingDir stagingFS).2 (by rfl)⟩

/-- C4: after every successful switch of the live files of `main`, each
`<live path>.backup` holds what the live file held just before that switch,
whatever the backup held earlier; after two successive successful switches each
backup holds what the live file held just before the second switch, which is
what the first switch installed. -/
theorem C4_backup_is_prior_live_state (homeDir : GoString) :
    (∀ (prof : GoString) (fs fs' : FS),
      backupAndReplaceAWSConfigs (awsConfigPath homeDir) (awsCredentialsPath homeDir) prof fs
        = (none, fs') →
      fs'.file (awsConfigPath homeDir ++ ".backup".toList) = fs.file (awsConfigPath homeDir) ∧
      fs'.file (awsCredentialsPath homeDir ++ ".backup".toList)
        = fs.file (awsCredentialsPath homeDir)) ∧
    (∀ (prof1 prof2 : GoString) (fs fs1 fs2 : FS),
      backupAndReplaceAWSConfigs (awsConfigPath homeDir) (awsCredentialsPath homeDir) prof1 fs
        = (none, fs1) →
      backupAndReplaceAWSConfigs (awsConfigPath homeDir) (awsCredentialsPath homeDir) prof2 fs1
        = (none, fs2) →
      fs2.file (awsConfigPath homeDir ++ ".backup".toList) = fs1.file (awsConfigPath homeDir) ∧
      fs2.file (awsCredentialsPath homeDir ++ ".backup".toList)
        = fs1.file (awsCredentialsPath homeDir) ∧
      fs2.file (awsConfigPath homeDir ++ ".backup".toList)
        = fs.file (filepath.Join [prof1, "config".toList]) ∧
      ∃ t, fs.file (filepath.Join [prof1, "credentials".toList]) = some t ∧
        fs2.file (awsCredentialsPath homeDir ++ ".backup".toList)
          = some (strings.Replace t "[credentials]".toList "[default]".toList)) := by
  have single : ∀ (prof : GoString) (fs fs' : FS),
      backupAndReplaceAWSConfigs (awsConfigPath homeDir) (awsCredentialsPath homeDir) prof fs
        = (none, fs') →
      fs'.file (awsConfigPath homeDir ++ ".backup".toList) = fs.file (awsConfigPath homeDir) ∧
      fs'.file (awsCredentialsPath homeDir ++ ".backup".toList)
        = fs.file (awsCredentialsPath homeDir) :=
    fun prof fs fs' h => switch_backups _ _ prof fs fs' h
      (liveCredentials_ne_backup homeDir _) (liveConfig_ne_backup homeDir _)
  refine ⟨single, ?_⟩
  intro prof1 prof2 fs fs1 fs2 h1 h2
  obtain ⟨hb1, hb2⟩ := single prof2 fs1 fs2 h2
  obtain ⟨hi1, t, ht, hi2⟩ := switch_installed _ _ prof1 fs fs1 h1 (live_ne homeDir)
    (profileCredentials_ne_liveConfig prof1 homeDir)
  exact ⟨hb1, hb2, by rw [hb1, hi1], t, ht, by rw [hb2, hi2]⟩

/-- C4 on `stagingFS`: the switch to `staging` succeeds and the backup of the
live config holds the old live config. -/
theorem C4_backup_is_prior_live_state_witness :
    backupAndReplaceAWSConfigs (awsConfigPath homeU) (awsCredentialsPath homeU) stagingDir
        stagingFS
      = (none, (backupAndReplaceAWSConfigs (awsConfigPath homeU) (awsCredentialsPath homeU)
          stagingDir stagingFS).2) ∧
    (backupAndReplaceAWSConfigs (awsConfigPath homeU) (awsCredentialsPath homeU)
        stagingDir stagingFS).2.file (awsConfigPath homeU ++ ".backup".toList)
      = stagingFS.file (awsConfigPath homeU) ∧
    (backupAndReplaceAWSConfigs (awsConfigPath homeU) (awsCredentialsPath homeU)
        stagingDir stagingFS).2.file (awsCredentialsPath homeU ++ ".backup".toList)
      = stagingFS.file (awsCredentialsPath homeU) :=
  ⟨by rfl, (C4_backup_is_prior_live_state homeU).1 stagingDir stagingFS
    (backupAndReplaceAWSConfigs (awsConfigPath homeU) (awsCredentialsPath homeU)
      stagingDir stagingFS).2 (by rfl)⟩

/-- With the live credentials file a symbolic link to the `credentials` file of
the profile `prod`, the switch to `staging` succeeds and the `credentials` file
of `prod` holds the credentials of `staging`. -/
theorem linked_switch_overwrites_profile :
    (Linked.backupAndReplaceAWSConfigs credentialsLinkedToProd (awsConfigPath homeU)
        (awsCredentialsPath homeU) stagingDir linkedFS).1 = none ∧
    linkedFS.file (filepath.Join [prodDir, "credentials".toList])
      = some "[prod]\naws_access_key_id=P\n".toList ∧
    (Linked.backupAndReplaceAWSConfigs credentialsLinkedToProd (awsConfigPath homeU)
        (awsCredentialsPath homeU) stagingDir linkedFS).2.file
        (filepath.Join [prodDir, "credentials".toList])
      = some "[staging]\naws_access_key_id=X\naws_secret_access_key=Y\n".toList := by
  decide

/-- C8 as stated fails on a file system with links: with the live credentials
file a symbolic link to the `credentials` file of the profile `prod`, the switch
to `staging` changes the `credentials` file of `prod`, whose path is none of the
two live paths and the two `.backup` paths. -/
theorem C8_linked_credentials_counterexample :
    ¬ ∀ (target : GoString → GoString) (cfg creds prof : GoString) (fs : FS) (q : GoString),
      q ∉ [cfg, creds, cfg ++ ".backup".toList, creds ++ ".backup".toList] →
      (Linked.backupAndReplaceAWSConfigs target cfg creds prof fs).2.file (target q)
        = fs.file (target q) := by
  intro h
  have h1 := h credentialsLinkedToProd (awsConfigPath homeU) (awsCredentialsPath homeU)
    stagingDir linkedFS (filepath.Join [prodDir, "credentials".toList]) (by decide)
  revert h1
  decide

/-- C8 (amended): whatever the links, the paths, the state and the outcome, a
call of `backupAndReplaceAWSConfigs` changes no file other than the four files
that the two live paths and their two `.backup` paths denote, and every write it
makes is made under one of these four names; so a profile file that is none of
the four files denoted is the same before and after. -/
theorem C8_writes_confined_to_denoted_files (target : GoString → GoString)
    (cfg creds prof : GoString) (fs : FS) :
    (∀ k, k ∉ [target cfg, target creds, target (cfg ++ ".backup".toList),
          target (creds ++ ".backup".toList)] →
      (Linked.backupAndReplaceAWSConfigs target cfg creds prof fs).2.file k = fs.file k) ∧
    (∃ evs, (Linked.backupAndReplaceAWSConfigs target cfg creds prof fs).2.log = fs.log ++ evs ∧
      ∀ e ∈ evs, e.isWrite = true →
        e.path ∈ [cfg, creds, cfg ++ ".backup".toList, creds ++ ".backup".toList]) ∧
    (target (filepath.Join [prof, "config".toList])
        ∉ [target cfg, target creds, target (cfg ++ ".backup".toList),
            target (creds ++ ".backup".toList)] →
      (Linked.backupAndReplaceAWSConfigs target cfg creds prof fs).2.file
          (target (filepath.Join [prof, "config".toList]))
        = fs.file (target (filepath.Join [prof, "config".toList]))) ∧
    (target (filepath.Join [prof, "credentials".toList])
        ∉ [target cfg, target creds, target (cfg ++ ".backup".toList),
            target (creds ++ ".backup".toList)] →
      (Linked.backupAndReplaceAWSConfigs target cfg creds prof fs).2.file
          (target (filepath.Join [prof, "credentials".toList]))
        = fs.file (target (filepath.Join [prof, "credentials".toList]))) := by
  have h := Linked_switch_confined target cfg creds prof fs
  exact ⟨h.1, h.2, h.1 _, h.1 _⟩

/-- C8 (amended) at the links of `credentialsLinkedToProd`: the `credentials`
file of the selected profile `staging` is none of the four files denoted and is
the same after the switch. -/
theorem C8_writes_confined_to_denoted_files_witness :
    credentialsLinkedToProd (filepath.Join [stagingDir, "credentials".toList])
        ∉ [credentialsLinkedToProd (awsConfigPath homeU),
            credentialsLinkedToProd (awsCredentialsPath homeU),
            credentialsLinkedToProd (awsConfigPath homeU ++ ".backup".toList),
            credentialsLinkedToProd (awsCredentialsPath homeU ++ ".backup".toList)] ∧
    (Linked.backupAndReplaceAWSConfigs credentialsLinkedToProd (awsConfigPath homeU)
        (awsCredentialsPath homeU) stagingDir linkedFS).2.file
        (credentialsLinkedToProd (filepath.Join [stagingDir, "credentials".toList]))
      = linkedFS.file
          (credentialsLinkedToProd (filepath.Join [stagingDir, "credentials".toList])) :=
  ⟨by decide,
    (C8_writes_confined_to_denoted_files credentialsLinkedToProd (awsConfigPath homeU)
      (awsCredentialsPath homeU) stagingDir linkedFS).2.2.2 (by decide)⟩

/-- C3 as stated fails: on `stagingFS` with writes to the config backup refused,
all four files exist and the six paths are distinct, yet the switch returns an
error. -/
theorem C3_refused_backup_counterexample :
    ¬ ∀ (cfg creds prof : GoString) (fs : FS),
      (∀ p ∈ [cfg, creds, filepath.Join [prof, "config".toList],
          filepath.Join [prof, "credentials".toList]], (fs.file p).isSome = true) →
      [cfg, creds, cfg ++ ".backup".toList, creds ++ ".backup".toList,
        filepath.Join [prof, "config".toList],
        filepath.Join [prof, "credentials".toList]].Nodup →
      (backupAndReplaceAWSConfigs cfg creds prof fs).1 = none ∧
      (backupAndReplaceAWSConfigs cfg creds prof fs).2.file cfg
        = fs.file (filepath.Join [prof, "config".toList]) := by
  intro h
  have h1 := (h (awsConfigPath homeU) (awsCredentialsPath homeU) stagingDir
    (stagingFS.refusing (awsConfigPath homeU ++ ".backup".toList))
    (by decide) (by decide)).1
  revert h1
  decide

/-- C3 (amended): when both live files and both profile files exist, the six
paths are pairwise distinct and none of the four writes is refused, the switch
succeeds and the live config file is then the profile's `config`, byte for
byte. -/
theorem C3_config_install_verbatim (cfg creds prof : GoString) (fs : FS)
    (hex : ∀ p ∈ [cfg, creds, filepath.Join [prof, "config".toList],
        filepath.Join [prof, "credentials".toList]], (fs.file p).isSome = true)
    (hd : [cfg, creds, cfg ++ ".backup".toList, creds ++ ".backup".toList,
        filepath.Join [prof, "config".toList],
        filepath.Join [prof, "credentials".toList]].Nodup)
    (hw : ∀ p ∈ [cfg ++ ".backup".toList, creds ++ ".backup".toList, cfg, creds],
        fs.refuses p = false) :
    (backupAndReplaceAWSConfigs cfg creds prof fs).1 = none ∧
    (backupAndReplaceAWSConfigs cfg creds prof fs).2.file cfg
      = fs.file (filepath.Join [prof, "config".toList]) := by
  obtain ⟨a, ha⟩ := Option.isSome_iff_exists.mp (hex cfg (by simp))
  obtain ⟨b, hb⟩ := Option.isSome_iff_exists.mp (hex creds (by simp))
  obtain ⟨c, hc⟩ := Option.isSome_iff_exists.mp (hex (filepath.Join [prof, "config".toList])
    (by simp))
  obtain ⟨t, ht⟩ := Option.isSome_iff_exists.mp
    (hex (filepath.Join [prof, "credentials".toList]) (by simp))
  simp only [List.nodup_cons, List.mem_cons, List.mem_singleton, List.not_mem_nil, or_false,
    not_or, List.nodup_nil, and_true, not_false_eq_true] at hd
  obtain ⟨⟨h12, h13, -, -, h16⟩, ⟨h23, -⟩, -⟩ := hd
  obtain ⟨fs', he, hf⟩ := switch_ok cfg creds prof a b c t fs ha
    (by rw [setFile_ne _ _ _ _ h23, hb]) hc
    (by rw [setFile_ne _ _ _ _ (Ne.symm h16), ht])
    (hw _ (by simp)) (hw _ (by simp)) (hw _ (by simp)) (hw _ (by simp))
  rw [he]
  refine ⟨rfl, ?_⟩
  show fs'.file cfg = _
  rw [hf, setFile_ne _ _ _ _ h12, setFile_same, hc]

/-- C3 (amended) on `stagingFS`. -/
theorem C3_config_install_verbatim_witness :
    (backupAndReplaceAWSConfigs (awsConfigPath homeU) (awsCredentialsPath homeU) stagingDir
        stagingFS).1 = none ∧
    (backupAndReplaceAWSConfigs (awsConfigPath homeU) (awsCredentialsPath homeU) stagingDir
        stagingFS).2.file (awsConfigPath homeU)
      = stagingFS.file (filepath.Join [stagingDir, "config".toList]) :=
  C3_config_install_verbatim (awsConfigPath homeU) (awsCredentialsPath homeU) stagingDir
    stagingFS (by decide) (by decide) (by decide)

/-- C5 as stated fails: on `noCredentialsFS` with writes to the config backup
refused, both live files and the profile's `config` exist and the profile has
no `credentials`, the switch returns an error, but the live config file has not
been overwritten with the profile's `config`. -/
theorem C5_refused_backup_counterexample :
    ¬ ∀ (homeDir prof : GoString) (fs : FS),
      (fs.file (awsConfigPath homeDir)).isSome = true →
      (fs.file (awsCredentialsPath homeDir)).isSome = true →
      (fs.file (filepath.Join [prof, "config".toList])).isSome = true →
      fs.file (filepath.Join [prof, "credentials".toList]) = none →
      (backupAndReplaceAWSConfigs (awsConfigPath homeDir) (awsCredentialsPath homeDir)
        prof fs).1 ≠ none ∧
      (backupAndReplaceAWSConfigs (awsConfigPath homeDir) (awsCredentialsPath homeDir)
        prof fs).2.file (awsConfigPath homeDir)
        = fs.file (filepath.Join [prof, "config".toList]) ∧
      (backupAndReplaceAWSConfigs (awsConfigPath homeDir) (awsCredentialsPath homeDir)
        prof fs).2.file (awsCredentialsPath homeDir)
        = fs.file (awsCredentialsPath homeDir) := by
  intro h
  have h1 := (h homeU stagingDir
    (noCredentialsFS.refusing (awsConfigPath homeU ++ ".backup".toList))
    (by decide) (by decide) (by decide) (by decide)).2.1
  revert h1
  decide

/-- C5 (amended): when both live files of `main` and the profile's `config`
exist and the profile has no `credentials`, the switch returns an error and the
live credentials file holds what it held before; when moreover none of the
writes to the two backups and to the live config is refused, the live config
file has been overwritten with the profile's `config`. -/
theorem C5_missing_profile_credentials (homeDir prof : GoString) (fs : FS)
    (hcfg : (fs.file (awsConfigPath homeDir)).isSome = true)
    (hcr : (fs.file (awsCredentialsPath homeDir)).isSome = true)
    (hpc : (fs.file (filepath.Join [prof, "config".toList])).isSome = true)
    (hpr : fs.file (filepath.Join [prof, "credentials".toList]) = none) :
    (backupAndReplaceAWSConfigs (awsConfigPath homeDir) (awsCredentialsPath homeDir)
      prof fs).1 ≠ none ∧
    (backupAndReplaceAWSConfigs (awsConfigPath homeDir) (awsCredentialsPath homeDir)
      prof fs).2.file (awsCredentialsPath homeDir) = fs.file (awsCredentialsPath homeDir) ∧
    (fs.refuses (awsConfigPath homeDir ++ ".backup".toList) = false →
      fs.refuses (awsCredentialsPath homeDir ++ ".backup".toList) = false →
      fs.refuses (awsConfigPath homeDir) = false →
      (backupAndReplaceAWSConfigs (awsConfigPath homeDir) (awsCredentialsPath homeDir)
        prof fs).2.file (awsConfigPath homeDir)
        = fs.file (filepath.Join [prof, "config".toList])) := by
  obtain ⟨a, ha⟩ := Option.isSome_iff_exists.mp hcfg
  obtain ⟨b, hb⟩ := Option.isSome_iff_exists.mp hcr
  obtain ⟨c, hc⟩ := Option.isSome_iff_exists.mp hpc
  refine ⟨switch_profile_credentials_missing_fails _ _ prof fs hpr
      (profileCredentials_ne_liveConfig prof homeDir), ?_, ?_⟩
  · refine (switch_profile_credentials_missing_confined _ _ prof fs hpr
      (profileCredentials_ne_liveConfig prof homeDir)).file_eq _ ?_
    simp only [List.mem_cons, List.mem_singleton, List.not_mem_nil, or_false, not_or]
    exact ⟨(live_ne homeDir).symm, liveCredentials_ne_backup homeDir _,
      liveCredentials_ne_backup homeDir _⟩
  · intro hr1 hr2 hr3
    rw [hc]
    exact switch_partial _ _ prof a b c fs ha
      (by rw [setFile_ne _ _ _ _ (liveCredentials_ne_backup homeDir _), hb]) hc hr1 hr2 hr3
      (live_ne homeDir)

/-- C5 (amended) on `noCredentialsFS`, where no write is refused. -/
theorem C5_missing_profile_credentials_witness :
    (backupAndReplaceAWSConfigs (awsConfigPath homeU) (awsCredentialsPath homeU)
      stagingDir noCredentialsFS).1 ≠ none ∧
    (backupAndReplaceAWSConfigs (awsConfigPath homeU) (awsCredentialsPath homeU)
      stagingDir noCredentialsFS).2.file (awsCredentialsPath homeU)
      = noCredentialsFS.file (awsCredentialsPath homeU) ∧
    (backupAndReplaceAWSConfigs (awsConfigPath homeU) (awsCredentialsPath homeU)
      stagingDir noCredentialsFS).2.file (awsConfigPath homeU)
      = noCredentialsFS.file (filepath.Join [stagingDir, "config".toList]) :=
  have h := C5_missing_profile_credentials homeU stagingDir noCredentialsFS
    (by decide) (by decide) (by decide) (by decide)
  ⟨h.1, h.2.1, h.2.2 (by decide) (by decide) (by decide)⟩

/-- C6: when the live config file or the live credentials file of `main` is
missing, the switch returns an error, both live paths hold what they held
before (nothing is created there), and the only write that can have been made
is the one to the config backup; when the live config is the missing one, no
file is written at all. -/
theorem C6_missing_live_file (homeDir prof : GoString) (fs : FS)
    (h : fs.file (awsConfigPath homeDir) = none ∨ fs.file (awsCredentialsPath homeDir) = none) :
    (backupAndReplaceAWSConfigs (awsConfigPath homeDir) (awsCredentialsPath homeDir)
      prof fs).1 ≠ none ∧
    (backupAndReplaceAWSConfigs (awsConfigPath homeDir) (awsCredentialsPath homeDir)
      prof fs).2.file (awsConfigPath homeDir) = fs.file (awsConfigPath homeDir) ∧
    (backupAndReplaceAWSConfigs (awsConfigPath homeDir) (awsCredentialsPath homeDir)
      prof fs).2.file (awsCredentialsPath homeDir) = fs.file (awsCredentialsPath homeDir) ∧
    (∃ evs, (backupAndReplaceAWSConfigs (awsConfigPath homeDir) (awsCredentialsPath homeDir)
        prof fs).2.log = fs.log ++ evs ∧
      ∀ e ∈ evs, e.isWrite = true → e.path = awsConfigPath homeDir ++ ".backup".toList) ∧
    (fs.file (awsConfigPath homeDir) = none →
      (backupAndReplaceAWSConfigs (awsConfigPath homeDir) (awsCredentialsPath homeDir)
        prof fs).2.file = fs.file ∧
      (backupAndReplaceAWSConfigs (awsConfigPath homeDir) (awsCredentialsPath homeDir)
        prof fs).2.log = fs.log ++ [Event.readFile (awsConfigPath homeDir)]) := by
  have key : (backupAndReplaceAWSConfigs (awsConfigPath homeDir) (awsCredentialsPath homeDir)
        prof fs).1 ≠ none ∧
      Confined [awsConfigPath homeDir ++ ".backup".toList] fs
        (backupAndReplaceAWSConfigs (awsConfigPath homeDir) (awsCredentialsPath homeDir)
          prof fs).2 := by
    rcases h with h | h
    · rw [switch_config_missing _ _ prof fs h]
      refine ⟨by simp only [ne_eq, reduceCtorEq, not_false_eq_true], fun _ _ => rfl,
        [Event.readFile (awsConfigPath homeDir)], rfl, ?_⟩
      intro e he hw
      rw [List.mem_singleton.mp he] at hw
      exact absurd hw (by simp [Event.isWrite])
    · exact ⟨switch_credentials_missing_fails _ _ prof fs h (liveCredentials_ne_backup homeDir _),
        switch_credentials_missing_confined _ _ prof fs h (liveCredentials_ne_backup homeDir _)⟩
  obtain ⟨hfail, hconf⟩ := key
  refine ⟨hfail, ?_, ?_, ?_, ?_⟩
  · exact hconf.file_eq _ (fun hq => liveConfig_ne_backup homeDir _ (List.mem_singleton.mp hq))
  · exact hconf.file_eq _
      (fun hq => liveCredentials_ne_backup homeDir _ (List.mem_singleton.mp hq))
  · obtain ⟨-, evs, hl, hw⟩ := hconf
    exact ⟨evs, hl, fun e he hwr => List.mem_singleton.mp (hw e he hwr)⟩
  · intro hc
    rw [switch_config_missing _ _ prof fs hc]
    exact ⟨rfl, rfl⟩

/-- C6 on `noLiveCredentialsFS`, where the live credentials file is missing. -/
theorem C6_missing_live_file_witness :
    (backupAndReplaceAWSConfigs (awsConfigPath homeU) (awsCredentialsPath homeU)
      stagingDir noLiveCredentialsFS).1 ≠ none ∧
    (backupAndReplaceAWSConfigs (awsConfigPath homeU) (awsCredentialsPath homeU)
      stagingDir noLiveCredentialsFS).2.file (awsConfigPath homeU)
      = noLiveCredentialsFS.file (awsConfigPath homeU) ∧
    (backupAndReplaceAWSConfigs (awsConfigPath homeU) (awsCredentialsPath homeU)
      stagingDir noLiveCredentialsFS).2.file (awsCredentialsPath homeU)
      = noLiveCredentialsFS.file (awsCredentialsPath homeU) :=
  have h := C6_missing_live_file homeU stagingDir noLiveCredentialsFS (Or.inr (by decide))
  ⟨h.1, h.2.1, h.2.2.1⟩

/-- C7: when `os.ReadDir` reads the store root without error, `getConfigDirs`
returns the names of the entries that are directories, each entry once and in
the order of the listing, and no name that belongs to no directory entry; when
`os.ReadDir` reports an error, `getConfigDirs` returns that error and no list.
The entries `a`, `b`, `c` (directories) and `notes.txt` (a regular file) give
`a`, `b`, `c`. -/
theorem C7_getConfigDirs_lists_directories (dir : GoString) (fs : FS) :
    (∀ files, fs.dirEntries dir = (files, none) →
      (getConfigDirs dir fs).1
        = Except.ok ((files.filter (fun e => e.IsDir)).map (fun e => e.Name)) ∧
      (∀ name, name ∈ (files.filter (fun e => e.IsDir)).map (fun e => e.Name) ↔
        ∃ e ∈ files, e.IsDir = true ∧ e.Name = name) ∧
      List.Sublist ((files.filter (fun e => e.IsDir)).map (fun e => e.Name))
        (files.map (fun e => e.Name)) ∧
      ((files.map (fun e => e.Name)).Nodup →
        ((files.filter (fun e => e.IsDir)).map (fun e => e.Name)).Nodup)) ∧
    (∀ files err, fs.dirEntries dir = (files, some err) →
      (getConfigDirs dir fs).1 = Except.error err) ∧
    (getConfigDirs (configsPath homeU) storeFS).1
      = Except.ok ["a".toList, "b".toList, "c".toList] := by
  refine ⟨?_, ?_, by rfl⟩
  · intro files h
    have hsub : List.Sublist ((files.filter (fun e => e.IsDir)).map (fun e => e.Name))
        (files.map (fun e => e.Name)) :=
      (List.filter_sublist files).map _
    refine ⟨by rw [getConfigDirs_ok dir fs files h], ?_, hsub, fun hn => hn.sublist hsub⟩
    intro name
    simp only [List.mem_map, List.mem_filter]
    constructor
    · rintro ⟨e, ⟨he, hd⟩, hname⟩
      exact ⟨e, he, hd, hname⟩
    · rintro ⟨e, he, hd, hname⟩
      exact ⟨e, ⟨he, hd⟩, hname⟩
  · intro files err h
    rw [getConfigDirs_error dir fs files err h]

/-- C7 on `storeFS`. -/
theorem C7_getConfigDirs_lists_directories_witness :
    (getConfigDirs (configsPath homeU) storeFS).1
      = Except.ok ((([⟨"a".toList, true⟩, ⟨"b".toList, true⟩, ⟨"c".toList, true⟩,
          ⟨"notes.txt".toList, false⟩] : List DirEntry).filter
            (fun e => e.IsDir)).map (fun e => e.Name)) :=
  ((C7_getConfigDirs_lists_directories (configsPath homeU) storeFS).1 _ rfl).1

/-- C9: when `main` gets as far as the selection and `fuzzyfinder.Find` reports
an error, `main` returns there; no file has changed, and the calls it made are
`os.Stat`, possibly `os.Mkdir`, and `os.ReadDir` on the store root: no file was
read and none written, so in particular no backup was written and neither live
file was read or written. -/
theorem C9_cancelled_selection (env : Env) (fs : FS) (homeDir : GoString)
    (files : List DirEntry) (err : Error)
    (hh : env.UserHomeDir = Except.ok homeDir)
    (hde : fs.dirEntries (configsPath homeDir) = (files, none))
    (hm : fs.notExist (configsPath homeDir) = true → fs.mkdirErr (configsPath homeDir) = none)
    (hf : env.Find ((files.filter (fun e => e.IsDir)).map (fun e => e.Name))
      = Except.error err) :
    (main env fs).1 = Outcome.noSelection err ∧
    (main env fs).2.file = fs.file ∧
    ∃ evs, (main env fs).2.log = fs.log ++ evs ∧
      ∀ e ∈ evs, e.isFileAccess = false ∧ e.path = configsPath homeDir := by
  rw [main_cancelled env fs homeDir files err hh hde hm hf]
  refine ⟨rfl, rfl, _, rfl, ?_⟩
  intro e he
  by_cases hn : fs.notExist (configsPath homeDir) = true
  · rw [if_pos hn] at he
    rcases List.mem_cons.mp he with h | he
    · rw [h]; exact ⟨rfl, rfl⟩
    · rcases List.mem_cons.mp he with h | he
      · rw [h]; exact ⟨rfl, rfl⟩
      · rw [List.mem_singleton.mp he]; exact ⟨rfl, rfl⟩
  · rw [if_neg hn] at he
    rcases List.mem_cons.mp he with h | he
    · rw [h]; exact ⟨rfl, rfl⟩
    · rw [List.mem_singleton.mp he]; exact ⟨rfl, rfl⟩

/-- C9 on `stagingStoreFS` with an operator who cancels. -/
theorem C9_cancelled_selection_witness :
    (main cancellingEnv stagingStoreFS).1 = Outcome.noSelection (Error.other "abort") ∧
    (main cancellingEnv stagingStoreFS).2.file = stagingStoreFS.file ∧
    ∃ evs, (main cancellingEnv stagingStoreFS).2.log = stagingStoreFS.log ++ evs ∧
      ∀ e ∈ evs, e.isFileAccess = false ∧ e.path = configsPath homeU :=
  C9_cancelled_selection cancellingEnv stagingStoreFS homeU
    [⟨"staging".toList, true⟩] (Error.other "abort") rfl rfl (by decide) rfl

/-- The same store with an operator who selects: `main` performs the switch,
reading and writing the live files. -/
theorem main_selecting_switches :
    (main selectingEnv stagingStoreFS).1 = Outcome.switched "staging".toList [] ∧
    (main selectingEnv stagingStoreFS).2.file (awsConfigPath homeU)
      = some "[default]\nregion=eu-west-1\n".toList ∧
    Event.readFile (awsConfigPath homeU) ∈ (main selectingEnv stagingStoreFS).2.log := by
  decide

end AwsConfigSwitcher
